import Mathlib

/-!
Verification development for a Mermaid-to-Draw.io diagram converter.

The JavaScript sources are embedded shallowly: strings are `List Char`,
JavaScript `Map`/`Set` objects are association lists / membership lists
with the same insertion-order semantics, fallible operations return
`Option`/`Except`, and each anchored regular expression is replaced by an
equivalent deterministic scanner (unanchored or backtracking regexes are
embedded with an explicit leftmost-search / ordered-alternative scheme
mirroring the JS engine's strategy).  All definitions are structurally
recursive so that concrete runs reduce inside the kernel.
-/

set_option maxHeartbeats 1000000

/-- Strings of the embedded programs: lists of characters. -/
abbrev Str := List Char

/-- Convert a Lean string literal to the embedding's string type. -/
def s2l (s : String) : Str := s.data

/-- JavaScript whitespace (the characters relevant to diagram sources):
space, tab, newline, carriage return. -/
def wsChar (c : Char) : Bool :=
  c = ' ' || c = '\t' || c = '\n' || c = '\r'

/-- JS regex `\w`: ASCII letters, digits, underscore. -/
def wordChar (c : Char) : Bool :=
  c.isAlpha || c.isDigit || c = '_'

/-- `strStarts p s`: `p` is a leading segment of `s` (JS `startsWith`). -/
def strStarts : Str → Str → Bool
  | [], _ => true
  | _ :: _, [] => false
  | p :: ps, c :: cs => p = c && strStarts ps cs

/-- Substring containment (JS `String.prototype.includes`). -/
def containsSub (p s : Str) : Bool :=
  match s with
  | [] => strStarts p []
  | _ :: t => strStarts p s || containsSub p t

/-- Drop leading whitespace. -/
def trimL (s : Str) : Str := s.dropWhile (fun c => wsChar c)

/-- Drop trailing whitespace. -/
def trimR (s : Str) : Str := (trimL s.reverse).reverse

/-- JS `String.prototype.trim`. -/
def trimStr (s : Str) : Str := trimL (trimR s)

/-- ASCII lowercase a whole string (JS `toLowerCase` on our inputs). -/
def toLowerStr (s : Str) : Str := s.map Char.toLower

/-- ASCII uppercase a whole string (JS `toUpperCase` on our inputs). -/
def toUpperStr (s : Str) : Str := s.map Char.toUpper

/-- JS `String.prototype.split('\n')`: always yields at least one piece. -/
def splitLines : Str → List Str
  | [] => [[]]
  | c :: t =>
    if c = '\n' then [] :: splitLines t
    else
      match splitLines t with
      | [] => [[c]]
      | h :: r => (c :: h) :: r

/-- Worker for non-overlapping substring counting: `skip` characters are
still owned by the previous match and may not start a new one. -/
def countGo (p : Str) : Nat → Str → Nat
  | _, [] => 0
  | Nat.succ k, _ :: t => countGo p k t
  | 0, c :: t =>
    if strStarts p (c :: t) then 1 + countGo p (p.length - 1) t
    else countGo p 0 t

/-- Number of non-overlapping occurrences of `p` in `s`, leftmost-first
(JS `(s.match(/p/g) || []).length` for a literal pattern). -/
def countSub (p s : Str) : Nat := countGo p 0 s

/-- Association-list embedding of a JS `Map`: `set` overwrites in place
keeping the original insertion position, otherwise appends. -/
def mapSet {α : Type} : List (Str × α) → Str → α → List (Str × α)
  | [], k, v => [(k, v)]
  | (k', v') :: t, k, v =>
    if k' = k then (k, v) :: t else (k', v') :: mapSet t k v

/-- `Map.get`: first binding of the key, if any. -/
def mapGet {α : Type} : List (Str × α) → Str → Option α
  | [], _ => none
  | (k', v') :: t, k => if k' = k then some v' else mapGet t k

/-- `Map.get` with a default (embedding `map.get(k) || d`). -/
def mapGetD {α : Type} (m : List (Str × α)) (k : Str) (d : α) : α :=
  (mapGet m k).getD d

/-- `Map.has`. -/
def mapHas {α : Type} (m : List (Str × α)) (k : Str) : Bool :=
  (mapGet m k).isSome

/-- `Array.from(map.values())`: values in insertion order. -/
def mapValues {α : Type} (m : List (Str × α)) : List α := m.map Prod.snd

/-- JS `Set.add`: no effect when the element is already present. -/
def insertS (x : Str) (l : List Str) : List Str :=
  if x ∈ l then l else x :: l

/-- JS `Set.delete`. -/
def removeS (x : Str) (l : List Str) : List Str :=
  l.filter (fun y => y ≠ x)

/-- Drop the final `n` characters of a string. -/
def dropLastN (n : Nat) (s : Str) : Str := s.take (s.length - n)

/-- Decimal rendering of a number (for synthesized element ids). -/
def natToStr (n : Nat) : Str := Nat.toDigits 10 n

/-! ## Data model (mermaid-parser.js) -/

/-- Result record of `parseNodeShape`. -/
structure ShapeInfo where
  shape : Str
  label : Str
  style : Str
  fillColor : Str
  strokeColor : Str
deriving DecidableEq, Repr

/-- A flowchart node as stored in the parser's node map. -/
structure Node where
  id : Str
  label : Str
  shape : Str
  style : Str
  fillColor : Str
  strokeColor : Str
deriving DecidableEq, Repr

/-- Result record of `parseArrow` (JS field `type` is `lineType` here). -/
structure ArrowConfig where
  lineType : Str
  arrow : Str
  hasLabel : Bool
deriving DecidableEq, Repr

/-- A flowchart edge. `arrowType` is `none` where the JS stores `null`
or leaves the field undefined. -/
structure Edge where
  id : Str
  source : Str
  target : Str
  label : Str
  arrowType : Option ArrowConfig
deriving DecidableEq, Repr

/-- A flowchart subgraph grouping. -/
structure Subgraph where
  id : Str
  label : Str
  nodes : List Str
deriving DecidableEq, Repr

/-- A sequence-diagram participant. -/
structure Participant where
  id : Str
  label : Str
  isActor : Bool
deriving DecidableEq, Repr

/-- A sequence-diagram message (JS fields `from`/`to` are `mfrom`/`mto`). -/
structure Message where
  mfrom : Str
  mto : Str
  message : Str
  lineType : Str
  isAsync : Bool
deriving DecidableEq, Repr

/-- An attribute of an ER entity (JS fields `type`/`name`). -/
structure ERAttribute where
  atype : Str
  aname : Str
deriving DecidableEq, Repr

/-- An ER entity. -/
structure Entity where
  id : Str
  label : Str
  attributes : List ERAttribute
deriving DecidableEq, Repr

/-- An ER relationship. -/
structure Relationship where
  id : Str
  source : Str
  target : Str
  cardinality1 : Str
  cardinality2 : Str
  label : Str
deriving DecidableEq, Repr

/-- A mindmap node. -/
structure MindNode where
  id : Str
  label : Str
  shape : Str
  level : Nat
  style : Str
  fillColor : Str
  strokeColor : Str
deriving DecidableEq, Repr

/-- The tagged parse result (`{type: ..., nodes, edges, ...}` in JS).
Each constructor carries exactly the dialect-specific payload; the JS
aliases `nodes`/`edges` are recovered by the projections below. -/
inductive Diagram where
  | flowchart (direction : Str) (nodes : List Node) (edges : List Edge)
      (subgraphs : List Subgraph)
  | sequence (participants : List Participant) (messages : List Message)
  | erDiagram (entities : List Entity) (relationships : List Relationship)
  | mindmap (nodes : List MindNode) (edges : List Edge) (direction : Str)
deriving DecidableEq, Repr

/-- The `type` field of the parse result. -/
def Diagram.typeStr : Diagram → Str
  | .flowchart _ _ _ _ => s2l "flowchart"
  | .sequence _ _ => s2l "sequence"
  | .erDiagram _ _ => s2l "erDiagram"
  | .mindmap _ _ _ => s2l "mindmap"

/-- Ids of the result's `nodes` sequence (for sequence diagrams the JS
sets `nodes: participants`; for ER diagrams `nodes: entities`). -/
def Diagram.nodeIds : Diagram → List Str
  | .flowchart _ ns _ _ => ns.map Node.id
  | .sequence ps _ => ps.map Participant.id
  | .erDiagram es _ => es.map Entity.id
  | .mindmap ns _ _ => ns.map MindNode.id

/-- (source, target) pairs of the result's `edges` sequence (for sequence
diagrams the JS maps each message to an edge `{source: m.from, to: m.to}`;
for ER diagrams `edges: relationships`). -/
def Diagram.edgeEndpoints : Diagram → List (Str × Str)
  | .flowchart _ _ es _ => es.map (fun e => (e.source, e.target))
  | .sequence _ ms => ms.map (fun m => (m.mfrom, m.mto))
  | .erDiagram _ rs => rs.map (fun r => (r.source, r.target))
  | .mindmap _ es _ => es.map (fun e => (e.source, e.target))

/-! ## Shape lexicon (SHAPE_MAPPINGS) and parseNodeShape -/

/-- One entry of `SHAPE_MAPPINGS`: delimiters, the character the regex
character class excludes from the body, and the visual attributes. -/
structure ShapeMapping where
  shapeName : Str
  openDelim : Str
  closeDelim : Str
  badChar : Char
  style : Str
  fillColor : Str
  strokeColor : Str
deriving DecidableEq, Repr

/-- The `stadium` entry of the lexicon (`^\\(\\[([^\\]]+)\\]\\)$`). -/
def stadiumMapping : ShapeMapping :=
  { shapeName := s2l "stadium", openDelim := s2l "([", closeDelim := s2l "])",
    badChar := ']',
    style := s2l "rounded=1;arcSize=50;whiteSpace=wrap;html=1;",
    fillColor := s2l "#d5e8d4", strokeColor := s2l "#82b366" }

/-- The `circle` entry of the lexicon (`^\\(\\(([^)]+)\\)\\)$`). -/
def circleMapping : ShapeMapping :=
  { shapeName := s2l "circle", openDelim := s2l "((", closeDelim := s2l "))",
    badChar := ')',
    style := s2l "ellipse;whiteSpace=wrap;html=1;",
    fillColor := s2l "#f8cecc", strokeColor := s2l "#b85450" }

/-- The `subroutine` entry of the lexicon (`^\\[\\[([^\\]]+)\\]\\]$`). -/
def subroutineMapping : ShapeMapping :=
  { shapeName := s2l "subroutine", openDelim := s2l "[[", closeDelim := s2l "]]",
    badChar := ']',
    style := s2l "shape=process;whiteSpace=wrap;html=1;",
    fillColor := s2l "#e1d5e7", strokeColor := s2l "#9673a6" }

/-- The `rectangle` entry of the lexicon (`^\\[([^\\]]+)\\]$`). -/
def rectangleMapping : ShapeMapping :=
  { shapeName := s2l "rectangle", openDelim := s2l "[", closeDelim := s2l "]",
    badChar := ']',
    style := s2l "rounded=0;whiteSpace=wrap;html=1;",
    fillColor := s2l "#dae8fc", strokeColor := s2l "#6c8ebf" }

/-- The `roundedRect` entry of the lexicon (`^\\(([^)]+)\\)$`). -/
def roundedRectMapping : ShapeMapping :=
  { shapeName := s2l "roundedRect", openDelim := s2l "(", closeDelim := s2l ")",
    badChar := ')',
    style := s2l "rounded=1;whiteSpace=wrap;html=1;",
    fillColor := s2l "#fff2cc", strokeColor := s2l "#d6b656" }

/-- The `diamond` entry of the lexicon (`^\\{([^}]+)\\}$`). -/
def diamondMapping : ShapeMapping :=
  { shapeName := s2l "diamond", openDelim := [ '{' ], closeDelim := [ '}' ],
    badChar := '}',
    style := s2l "rhombus;whiteSpace=wrap;html=1;",
    fillColor := s2l "#ffe6cc", strokeColor := s2l "#d79b00" }

/-- `SHAPE_MAPPINGS` in declaration order (most specific first). -/
def SHAPE_MAPPINGS : List ShapeMapping :=
  [stadiumMapping, circleMapping, subroutineMapping, rectangleMapping,
   roundedRectMapping, diamondMapping]

/-- Match one lexicon pattern `^OPEN([^B]+)CLOSE$` against a fragment,
returning the captured body.  The JS regex body class is greedy over
characters other than `B`, so the match succeeds exactly when the string
decomposes as `OPEN ++ body ++ CLOSE` with a nonempty body avoiding `B`. -/
def delimMatch (m : ShapeMapping) (s : Str) : Option Str :=
  let mid := dropLastN m.closeDelim.length (s.drop m.openDelim.length)
  if strStarts m.openDelim s && strStarts m.closeDelim.reverse s.reverse
      && !mid.isEmpty && mid.all (fun c => c ≠ m.badChar) then
    some mid
  else
    none

/-- Worker for `parseNodeShape`: first matching lexicon entry wins. -/
def tryShapes : List ShapeMapping → Str → Option ShapeInfo
  | [], _ => none
  | m :: rest, s =>
    match delimMatch m s with
    | some body =>
      some { shape := m.shapeName, label := trimStr body, style := m.style,
             fillColor := m.fillColor, strokeColor := m.strokeColor }
    | none => tryShapes rest s

/-- `parseNodeShape`: first matching `SHAPE_MAPPINGS` pattern, else the
rectangle default with the trimmed raw text as label. -/
def parseNodeShape (nodeContent : Str) : ShapeInfo :=
  match tryShapes SHAPE_MAPPINGS nodeContent with
  | some info => info
  | none =>
    { shape := s2l "rectangle", label := trimStr nodeContent,
      style := rectangleMapping.style,
      fillColor := rectangleMapping.fillColor,
      strokeColor := rectangleMapping.strokeColor }

/-! ## parseArrow -/

/-- The `arrowTypes` table of `parseArrow`, in declaration order. -/
def arrowTypes : List (Str × ArrowConfig) :=
  [ (s2l "-->", { lineType := s2l "solid", arrow := s2l "classic", hasLabel := false }),
    (s2l "---", { lineType := s2l "solid", arrow := s2l "none", hasLabel := false }),
    (s2l "-.->", { lineType := s2l "dashed", arrow := s2l "classic", hasLabel := false }),
    (s2l "-.-", { lineType := s2l "dashed", arrow := s2l "none", hasLabel := false }),
    (s2l "==>", { lineType := s2l "thick", arrow := s2l "classic", hasLabel := false }),
    (s2l "-->|", { lineType := s2l "solid", arrow := s2l "classic", hasLabel := true }),
    (s2l "--|", { lineType := s2l "solid", arrow := s2l "none", hasLabel := true }) ]

/-- Worker for `parseArrow`: first containment match wins. -/
def findArrow : List (Str × ArrowConfig) → Str → Option ArrowConfig
  | [], _ => none
  | (pat, cfg) :: rest, s =>
    if containsSub pat s then some cfg else findArrow rest s

/-- `parseArrow`: substring-containment lookup with a solid-classic default. -/
def parseArrow (arrowStr : Str) : ArrowConfig :=
  match findArrow arrowTypes arrowStr with
  | some cfg => cfg
  | none => { lineType := s2l "solid", arrow := s2l "classic", hasLabel := false }

/-! ## parseConnection

The JS pattern is
`^(\w+)([\[\(\{].*?[\]\)\}])?\s*(-->|---|-\.->|-\.-|==>)(\|([^|]*)\|)?\s*(.+)$`.
The leading `\w+` and each `\s*` are deterministic here (no following
element can consume a word / whitespace character), while the lazy shape
group, the arrow alternation and the optional label group genuinely
backtrack; they are embedded as ordered alternatives with `<|>`.
Lines handed to the parser contain no newline, so the `.` class is plain
"any character". -/

/-- The bracket characters opening a shape group (`[\[\(\{]`). -/
def openBracketChar (c : Char) : Bool := c = '[' || c = '(' || c = '{'

/-- The bracket characters closing a shape group (`[\]\)\}]`). -/
def closeBracketChar (c : Char) : Bool := c = ']' || c = ')' || c = '}'

/-- The arrow alternation of the connection pattern, in regex order. -/
def connArrowToks : List Str :=
  [s2l "-->", s2l "---", s2l "-.->", s2l "-.-", s2l "==>"]

/-- `\s*(.+)$`: greedy whitespace, then a nonempty remainder; when the
remainder is all whitespace the engine backtracks one character, leaving
the final character as the capture. -/
def connTail (r : Str) : Option Str :=
  let tgt := trimL r
  if !tgt.isEmpty then some tgt
  else
    match r.reverse with
    | [] => none
    | c :: _ => some [c]

/-- `(\|([^|]*)\|)?\s*(.+)$`: try the greedy optional label group first
(its body is a maximal run of non-`|` characters), falling back to no
label when the group or the tail fails. -/
def connAfterArrow (r : Str) : Option (Option Str × Str) :=
  let skipped := (connTail r).map (fun tg => ((none : Option Str), tg))
  match r with
  | '|' :: t =>
    let inner := t.takeWhile (fun c => c ≠ '|')
    let after := t.drop inner.length
    (match after with
     | '|' :: t2 => (connTail t2).map (fun tg => (some inner, tg))
     | _ => none) <|> skipped
  | _ => skipped

/-- The arrow alternation with continuation backtracking: the first
token (in regex order) whose continuation also succeeds wins. -/
def connArrowGo : List Str → Str → Option (Str × Option Str × Str)
  | [], _ => none
  | tok :: toks, r =>
    (if strStarts tok r then
      (connAfterArrow (r.drop tok.length)).map
        (fun (p : Option Str × Str) => (tok, p.1, p.2))
     else none) <|> connArrowGo toks r

/-- `\s*(ARROW)(\|([^|]*)\|)?\s*(.+)$` applied after the source id and
optional shape group. -/
def connRest (rest : Str) : Option (Str × Option Str × Str) :=
  connArrowGo connArrowToks (trimL rest)

/-- The lazy shape body `.*?[\]\)\}]`: extents are tried shortest first,
each ending at a closing bracket whose continuation succeeds. -/
def connLazyShape (acc : Str) : Str → Option (Str × (Str × Option Str × Str))
  | [] => none
  | c :: t =>
    (if closeBracketChar c then
      (connRest t).map (fun r => (acc ++ [c], r))
     else none) <|> connLazyShape (acc ++ [c]) t

/-- Result record of `parseConnection`. -/
structure Connection where
  source : Str
  target : Str
  label : Str
  arrowType : ArrowConfig
  sourceNode : Option Node
  targetNode : Option Node
deriving DecidableEq, Repr

/-- Build a parser node from an id and shape info (`{id, ...shapeInfo}`). -/
def nodeOfShape (id : Str) (si : ShapeInfo) : Node :=
  { id := id, label := si.label, shape := si.shape, style := si.style,
    fillColor := si.fillColor, strokeColor := si.strokeColor }

/-- The parser's default rectangle node for a bare id reference. -/
def defaultNode (id : Str) : Node :=
  { id := id, label := id, shape := s2l "rectangle",
    style := rectangleMapping.style,
    fillColor := rectangleMapping.fillColor,
    strokeColor := rectangleMapping.strokeColor }

/-- The inline target pattern `^(\w+)([\[\(\{].*?[\]\)\}])$`: a maximal
word prefix, an opening bracket, any body, and a closing bracket that is
the final character (the lazy body plus the end anchor force exactly
this shape). -/
def inlineTargetMatch (targetPart : Str) : Option (Str × Str) :=
  let tw := targetPart.takeWhile (fun c => wordChar c)
  let restT := targetPart.drop tw.length
  match restT, restT.reverse with
  | c :: _, last :: _ =>
    if !tw.isEmpty && openBracketChar c && closeBracketChar last then
      some (tw, restT)
    else none
  | _, _ => none

/-- `parseConnection`. -/
def parseConnection (line : Str) : Option Connection :=
  let srcId := line.takeWhile (fun c => wordChar c)
  if srcId.isEmpty then none
  else
    let rest0 := line.drop srcId.length
    let skipGroup := (connRest rest0).map
      (fun r => ((none : Option Str), r))
    let attempt :=
      match rest0 with
      | c :: t =>
        if openBracketChar c then
          ((connLazyShape [] t).map
            (fun (p : Str × (Str × Option Str × Str)) => (some (c :: p.1), p.2)))
            <|> skipGroup
        else skipGroup
      | [] => skipGroup
    match attempt with
    | none => none
    | some (shapeGrp, (arrowTok, edgeLabel, targetPart)) =>
      let sourceNode := shapeGrp.map (fun sh => nodeOfShape srcId (parseNodeShape sh))
      let arrowConfig := parseArrow arrowTok
      match inlineTargetMatch targetPart with
      | some (tw, grp) =>
        some { source := srcId, target := tw, label := edgeLabel.getD [],
               arrowType := arrowConfig, sourceNode := sourceNode,
               targetNode := some (nodeOfShape tw (parseNodeShape grp)) }
      | none =>
        some { source := srcId, target := trimStr targetPart,
               label := edgeLabel.getD [], arrowType := arrowConfig,
               sourceNode := sourceNode, targetNode := none }

/-! ## parseFlowchart -/

/-- The anchored subgraph pattern body, attempted at one position:
`subgraph\s+(\w+)(?:\s*\[([^\]]+)\])?` (every quantifier here is
deterministic as the following element rejects the quantified class). -/
def subgraphAt (s : Str) : Option (Str × Option Str) :=
  if strStarts (s2l "subgraph") s then
    let r := s.drop 8
    let w := r.takeWhile (fun c => wsChar c)
    if w.isEmpty then none
    else
      let r2 := r.drop w.length
      let id := r2.takeWhile (fun c => wordChar c)
      if id.isEmpty then none
      else
        let r3 := trimL (r2.drop id.length)
        match r3 with
        | '[' :: t =>
          let body := t.takeWhile (fun c => c ≠ ']')
          if body.isEmpty then some (id, none)
          else
            match t.drop body.length with
            | ']' :: _ => some (id, some body)
            | _ => some (id, none)
        | _ => some (id, none)
  else none

/-- Leftmost search for the (unanchored) subgraph pattern. -/
def searchSubgraph (s : Str) : Option (Str × Option Str) :=
  match s with
  | [] => subgraphAt []
  | _ :: t => subgraphAt s <|> searchSubgraph t

/-- A standalone node definition `^(\w+)([\[\(\{].+[\]\)\}])$`: word id,
then a group running to the end of the line that starts with an opening
bracket, ends with a closing bracket, and has a nonempty body. -/
def nodeDefMatch (line : Str) : Option (Str × Str) :=
  let id := line.takeWhile (fun c => wordChar c)
  let rest := line.drop id.length
  match rest, rest.reverse with
  | c :: _, last :: _ =>
    if !id.isEmpty && openBracketChar c && closeBracketChar last
        && decide (3 ≤ rest.length) then
      some (id, rest)
    else none
  | _, _ => none

/-- Mutable state of the flowchart scanning loop. -/
structure FlowState where
  nodes : List (Str × Node)
  edges : List Edge
  subgraphs : List Subgraph
  current : Option Subgraph
deriving Repr

/-- The endpoint upsert of the connection branch: inline shape info
wins; a bare reference only creates a missing default node. -/
def upsertNode (m : List (Str × Node)) (key : Str) (inline : Option Node) :
    List (Str × Node) :=
  match inline with
  | some n => mapSet m key n
  | none => if mapHas m key then m else mapSet m key (defaultNode key)

/-- Handle one recognized connection: upsert endpoints, record group
membership, append the edge. -/
def connStep (st : FlowState) (conn : Connection) : FlowState :=
  let nodes1 := upsertNode st.nodes conn.source conn.sourceNode
  let nodes2 := upsertNode nodes1 conn.target conn.targetNode
  let current2 :=
    match st.current with
    | some sg =>
      let ns1 := if conn.source ∈ sg.nodes then sg.nodes else sg.nodes ++ [conn.source]
      let ns2 := if conn.target ∈ ns1 then ns1 else ns1 ++ [conn.target]
      some { sg with nodes := ns2 }
    | none => none
  let edge : Edge :=
    { id := 'e' :: natToStr (st.edges.length + 1), source := conn.source,
      target := conn.target, label := conn.label,
      arrowType := some conn.arrowType }
  { nodes := nodes2, edges := st.edges ++ [edge],
    subgraphs := st.subgraphs, current := current2 }

/-- One line of the flowchart scanning loop. -/
def flowStep (st : FlowState) (rawLine : Str) : FlowState :=
  let line := trimStr rawLine
  if line.isEmpty || strStarts (s2l "%%") line then st
  else if strStarts (s2l "subgraph") line then
    match searchSubgraph line with
    | some (id, lab) =>
      { st with current := some { id := id, label := lab.getD id, nodes := [] } }
    | none => st
  else if line = s2l "end" then
    match st.current with
    | some sg =>
      { st with subgraphs := st.subgraphs ++ [sg], current := none }
    | none => st
  else
    match parseConnection line with
    | some conn => connStep st conn
    | none =>
      match nodeDefMatch line with
      | some (id, grp) =>
        let st' := { st with nodes := mapSet st.nodes id (nodeOfShape id (parseNodeShape grp)) }
        match st'.current with
        | some sg => { st' with current := some { sg with nodes := sg.nodes ++ [id] } }
        | none => st'
      | none => st

/-- `parseFlowchart`: scan every line after the declaration line. -/
def parseFlowchart (lines : List Str) (direction : Str) : Diagram :=
  let final := (lines.drop 1).foldl flowStep
    { nodes := [], edges := [], subgraphs := [], current := none }
  Diagram.flowchart direction (mapValues final.nodes) final.edges final.subgraphs

/-! ## parseSequenceDiagram

The three patterns are unanchored searches; each is embedded as an
attempt at one position plus a leftmost scan over start positions. -/

/-- The optional clause `(?:\s+as\s+(.+))?` after a participant/actor id
(`\s+` is forced maximal because the literal `as` starts with a
non-whitespace character). -/
def asClause (r : Str) : Option Str :=
  let w := r.takeWhile (fun c => wsChar c)
  if w.isEmpty then none
  else
    let r2 := r.drop w.length
    if strStarts (s2l "as") r2 then
      let r3 := r2.drop 2
      let w2 := r3.takeWhile (fun c => wsChar c)
      if w2.isEmpty then none
      else
        let lab := r3.drop w2.length
        if lab.isEmpty then none else some lab
    else none

/-- `keyword\s+(\w+)(?:\s+as\s+(.+))?` attempted at one position. -/
def declAt (keyword : Str) (s : Str) : Option (Str × Option Str) :=
  if strStarts keyword s then
    let r := s.drop keyword.length
    let w := r.takeWhile (fun c => wsChar c)
    if w.isEmpty then none
    else
      let r2 := r.drop w.length
      let id := r2.takeWhile (fun c => wordChar c)
      if id.isEmpty then none
      else some (id, asClause (r2.drop id.length))
  else none

/-- Leftmost search for a participant/actor declaration pattern. -/
def searchDecl (keyword : Str) (s : Str) : Option (Str × Option Str) :=
  match s with
  | [] => declAt keyword []
  | _ :: t => declAt keyword s <|> searchDecl keyword t

/-- Arrow-token alternatives of the message pattern
`(->>?|-->>?|-)` expanded in the engine's try order (each alternative
with its internal greedy `?`, longest variant first). -/
def msgArrowToks : List Str :=
  [s2l "->>", s2l "->", s2l "-->>", s2l "-->", s2l "-"]

/-- `\s*(\w+)\s*:\s*(.+)` after the arrow (deterministic). -/
def msgAfterArrow (r : Str) : Option (Str × Str) :=
  let r3 := trimL r
  let tgt := r3.takeWhile (fun c => wordChar c)
  if tgt.isEmpty then none
  else
    match trimL (r3.drop tgt.length) with
    | ':' :: r5 => (connTail r5).map (fun tx => (tgt, tx))
    | _ => none

/-- The arrow alternation plus the outer `>?` with continuation
backtracking (greedy: consuming the extra `>` is tried first). -/
def msgArrowGo : List Str → Str → Option (Str × Str × Str)
  | [], _ => none
  | tok :: toks, r =>
    (if strStarts tok r then
      let r2 := r.drop tok.length
      (match r2 with
       | '>' :: r2' => (msgAfterArrow r2').map (fun (p : Str × Str) => (tok, p.1, p.2))
       | _ => none)
      <|> (msgAfterArrow r2).map (fun (p : Str × Str) => (tok, p.1, p.2))
     else none) <|> msgArrowGo toks r

/-- The message pattern `(\w+)\s*(->>?|-->>?|-)>?\s*(\w+)\s*:\s*(.+)`
attempted at one position. -/
def messageAt (s : Str) : Option (Str × Str × Str × Str) :=
  let f := s.takeWhile (fun c => wordChar c)
  if f.isEmpty then none
  else
    (msgArrowGo msgArrowToks (trimL (s.drop f.length))).map
      (fun (p : Str × Str × Str) => (f, p.1, p.2.1, p.2.2))

/-- Leftmost search for the message pattern. -/
def searchMessage (s : Str) : Option (Str × Str × Str × Str) :=
  match s with
  | [] => messageAt []
  | _ :: t => messageAt s <|> searchMessage t

/-- Mutable state of the sequence scanning loop. -/
structure SeqState where
  participants : List Participant
  messages : List Message
deriving Repr

/-- One line of the sequence scanning loop. -/
def seqStep (st : SeqState) (rawLine : Str) : SeqState :=
  let line := trimStr rawLine
  if line.isEmpty || strStarts (s2l "%%") line then st
  else
    match searchDecl (s2l "participant") line with
    | some (id, lab) =>
      { st with participants := st.participants ++
          [{ id := id, label := lab.getD id, isActor := false }] }
    | none =>
      match searchDecl (s2l "actor") line with
      | some (id, lab) =>
        { st with participants := st.participants ++
            [{ id := id, label := lab.getD id, isActor := true }] }
      | none =>
        match searchMessage line with
        | some (f, tok, tgt, text) =>
          { st with messages := st.messages ++
              [{ mfrom := f, mto := tgt, message := text,
                 lineType := if containsSub (s2l "--") tok then s2l "dashed" else s2l "solid",
                 isAsync := containsSub (s2l ">>") tok }] }
        | none => st

/-- `parseSequenceDiagram`. -/
def parseSequenceDiagram (lines : List Str) : Diagram :=
  let final := (lines.drop 1).foldl seqStep { participants := [], messages := [] }
  Diagram.sequence final.participants final.messages

/-! ## parseERDiagram -/

/-- `^(\w+)\s*\{$`: an entity block opener. -/
def entityBlockStart (line : Str) : Option Str :=
  let id := line.takeWhile (fun c => wordChar c)
  if id.isEmpty then none
  else if trimL (line.drop id.length) = [ '{' ] then some id
  else none

/-- `^(\w+)\s+(\w+)\s*$`: an attribute line inside an entity block. -/
def attrMatch (line : Str) : Option (Str × Str) :=
  let t1 := line.takeWhile (fun c => wordChar c)
  if t1.isEmpty then none
  else
    let r := line.drop t1.length
    let w := r.takeWhile (fun c => wsChar c)
    if w.isEmpty then none
    else
      let r2 := r.drop w.length
      let t2 := r2.takeWhile (fun c => wordChar c)
      if t2.isEmpty then none
      else if (trimL (r2.drop t2.length)).isEmpty then some (t1, t2)
      else none

/-- First-cardinality alternatives
`(\|\||\|o|o\||o\{|\{o|\}\||\|\{|\{|)` in regex order (final
alternative empty). -/
def card1Toks : List Str :=
  [s2l "||", s2l "|o", s2l "o|", s2l "o\x7b", s2l "\x7bo", s2l "\x7d|",
   s2l "|\x7b", s2l "\x7b", s2l ""]

/-- Second-cardinality alternatives
`(\|\||\|o|o\||\{o|o\{|\|\{|\}\|||\{)` in regex order (an empty
alternative sits before the final `\{`). -/
def card2Toks : List Str :=
  [s2l "||", s2l "|o", s2l "o|", s2l "\x7bo", s2l "o\x7b", s2l "|\x7b",
   s2l "\x7d|", s2l "", s2l "\x7b"]

/-- `\s*"?([^"]+)"?` after the relationship colon: the engine prefers
the longest whitespace run and the quoted form, backtracking on the
whitespace extent when the body class cannot start. `k` is the number
of leading whitespace characters still allowed to be consumed. -/
def relLabelGo (r : Str) : Nat → Option Str
  | 0 =>
    (match r with
     | '"' :: t =>
       let body := t.takeWhile (fun c => c ≠ '"')
       if body.isEmpty then none else some body
     | _ => none) <|>
    (let body := r.takeWhile (fun c => c ≠ '"')
     if body.isEmpty then none else some body)
  | Nat.succ k =>
    (let r2 := r.drop (Nat.succ k)
     (match r2 with
      | '"' :: t =>
        let body := t.takeWhile (fun c => c ≠ '"')
        if body.isEmpty then none else some body
      | _ => none) <|>
     (let body := r2.takeWhile (fun c => c ≠ '"')
      if body.isEmpty then none else some body)) <|> relLabelGo r k

/-- The label tail of the relationship pattern. -/
def relLabel (r : Str) : Option Str :=
  relLabelGo r (r.takeWhile (fun c => wsChar c)).length

/-- Second half of the relationship pattern after `--`:
`\s*(CARD2)\s*(\w+)\s*:\s*"?([^"]+)"?` with ordered-alternative
backtracking on the cardinality. -/
def relAfterDashGo : List Str → Str → Option (Str × Str × Str)
  | [], _ => none
  | tok :: toks, r =>
    (if strStarts tok r then
      let r2 := trimL (r.drop tok.length)
      let e2 := r2.takeWhile (fun c => wordChar c)
      if e2.isEmpty then none
      else
        match trimL (r2.drop e2.length) with
        | ':' :: r5 => (relLabel r5).map (fun lab => (tok, e2, lab))
        | _ => none
     else none) <|> relAfterDashGo toks r

/-- First half of the relationship pattern after the first entity:
`\s*(CARD1)\s*--` plus the second half. -/
def relCard1Go : List Str → Str → Option (Str × Str × Str × Str)
  | [], _ => none
  | tok :: toks, r =>
    (if strStarts tok r then
      let r2 := trimL (r.drop tok.length)
      if strStarts (s2l "--") r2 then
        (relAfterDashGo card2Toks (trimL (r2.drop 2))).map
          (fun (p : Str × Str × Str) => (tok, p.1, p.2.1, p.2.2))
      else none
     else none) <|> relCard1Go toks r

/-- The relationship pattern attempted at one position:
result `(entity1, card1, card2, entity2, label)`. -/
def relAt (s : Str) : Option (Str × Str × Str × Str × Str) :=
  let e1 := s.takeWhile (fun c => wordChar c)
  if e1.isEmpty then none
  else
    (relCard1Go card1Toks (trimL (s.drop e1.length))).map
      (fun (p : Str × Str × Str × Str) => (e1, p.1, p.2.1, p.2.2.1, p.2.2.2))

/-- Leftmost search for the (unanchored) relationship pattern. -/
def searchRel (s : Str) : Option (Str × Str × Str × Str × Str) :=
  match s with
  | [] => relAt []
  | _ :: t => relAt s <|> searchRel t

/-- The single-line attribute pattern
`(\w+)\s*\{\s*(\w+)\s+(\w+)\s*\}` attempted at one position. -/
def singleAttrAt (s : Str) : Option (Str × Str × Str) :=
  let e := s.takeWhile (fun c => wordChar c)
  if e.isEmpty then none
  else
    match trimL (s.drop e.length) with
    | '{' :: r2 =>
      let r3 := trimL r2
      let t1 := r3.takeWhile (fun c => wordChar c)
      if t1.isEmpty then none
      else
        let r4 := r3.drop t1.length
        let w := r4.takeWhile (fun c => wsChar c)
        if w.isEmpty then none
        else
          let r5 := r4.drop w.length
          let t2 := r5.takeWhile (fun c => wordChar c)
          if t2.isEmpty then none
          else
            match trimL (r5.drop t2.length) with
            | '}' :: _ => some (e, t1, t2)
            | _ => none
    | _ => none

/-- Leftmost search for the single-line attribute pattern. -/
def searchSingleAttr (s : Str) : Option (Str × Str × Str) :=
  match s with
  | [] => singleAttrAt []
  | _ :: t => singleAttrAt s <|> searchSingleAttr t

/-- Mutable state of the ER scanning loop; `current` holds the key of
the open entity (the JS keeps a reference into the map). -/
structure ERState where
  entities : List (Str × Entity)
  relationships : List Relationship
  current : Option Str
  inBlock : Bool
deriving Repr

/-- Insert the entity if the map does not know the name yet. -/
def ensureEntity (m : List (Str × Entity)) (name : Str) : List (Str × Entity) :=
  if mapHas m name then m
  else mapSet m name { id := name, label := name, attributes := [] }

/-- Append an attribute to a (present) entity. -/
def pushAttr (m : List (Str × Entity)) (name : Str) (a : ERAttribute) :
    List (Str × Entity) :=
  match mapGet m name with
  | some e => mapSet m name { e with attributes := e.attributes ++ [a] }
  | none => m

/-- One line of the ER scanning loop. -/
def erStep (st : ERState) (rawLine : Str) : ERState :=
  let line := trimStr rawLine
  if line.isEmpty || strStarts (s2l "%%") line then st
  else if line = [ '}' ] then { st with inBlock := false, current := none }
  else
    match entityBlockStart line with
    | some name =>
      { st with
          entities := ensureEntity st.entities name,
          current := some name,
          inBlock := true }
    | none =>
      let attrTaken :=
        match st.current with
        | some k =>
          if st.inBlock then
            match attrMatch line with
            | some (t, n) =>
              some { st with entities := pushAttr st.entities k { atype := t, aname := n } }
            | none => none
          else none
        | none => none
      match attrTaken with
      | some st' => st'
      | none =>
        match searchRel line with
        | some (e1, c1, c2, e2, lab) =>
          let ents := ensureEntity (ensureEntity st.entities e1) e2
          let rel : Relationship :=
            { id := 'r' :: natToStr (st.relationships.length + 1),
              source := e1, target := e2,
              cardinality1 := if c1.isEmpty then s2l "||" else c1,
              cardinality2 := if c2.isEmpty then s2l "||" else c2,
              label := trimStr lab }
          { st with
              entities := ents,
              relationships := st.relationships ++ [rel] }
        | none =>
          match searchSingleAttr line with
          | some (e, t, n) =>
            { st with entities :=
                pushAttr (ensureEntity st.entities e) e { atype := t, aname := n } }
          | none => st

/-- `parseERDiagram`. -/
def parseERDiagram (lines : List Str) : Diagram :=
  let final := (lines.drop 1).foldl erStep
    { entities := [], relationships := [], current := none, inBlock := false }
  Diagram.erDiagram (mapValues final.entities) final.relationships

/-! ## parseMindmap -/

/-- Nat-keyed association `set` for the sparse `nodeStack` array. -/
def nstackSet : List (Nat × Str) → Nat → Str → List (Nat × Str)
  | [], k, v => [(k, v)]
  | (k', v') :: t, k, v =>
    if k' = k then (k, v) :: t else (k', v') :: nstackSet t k v

/-- Nat-keyed association lookup for the sparse `nodeStack` array. -/
def nstackGet : List (Nat × Str) → Nat → Option Str
  | [], _ => none
  | (k', v') :: t, k => if k' = k then some v' else nstackGet t k

/-- `getLevelColor`: fill palette indexed by `level % 6`. -/
def getLevelColor (level : Nat) : Str :=
  [s2l "#f8cecc", s2l "#dae8fc", s2l "#d5e8d4", s2l "#fff2cc",
   s2l "#e1d5e7", s2l "#ffe6cc"].getD (level % 6) []

/-- `getLevelStrokeColor`: stroke palette indexed by `level % 6`. -/
def getLevelStrokeColor (level : Nat) : Str :=
  [s2l "#b85450", s2l "#6c8ebf", s2l "#82b366", s2l "#d6b656",
   s2l "#9673a6", s2l "#d79b00"].getD (level % 6) []

/-- Mutable state of the mindmap scanning loop. -/
structure MindState where
  nodes : List MindNode
  edges : List Edge
  stack : List (Nat × Str)
  counter : Nat
deriving Repr

/-- Shape classification of one mindmap line's content:
`^root\(\((.+)\)\)$`, then `^\((.+)\)$`, then `^\[(.+)\]$`, else plain
text; each greedy body runs from the opening delimiter to the final
closing delimiter and must be nonempty. -/
def mindShape (content : Str) : Str × Str :=
  let rootMid := dropLastN 2 (content.drop 6)
  let roundMid := dropLastN 1 (content.drop 1)
  if strStarts (s2l "root((") content && strStarts (s2l "))").reverse content.reverse
      && !rootMid.isEmpty then
    (rootMid, s2l "circle")
  else if strStarts [ '(' ] content && strStarts [ ')' ] content.reverse
      && !roundMid.isEmpty then
    (roundMid, s2l "roundedRect")
  else if strStarts [ '[' ] content && strStarts [ ']' ] content.reverse
      && !roundMid.isEmpty then
    (roundMid, s2l "rectangle")
  else (content, s2l "rectangle")

/-- Style string chosen from the shape in `parseMindmap`. -/
def mindStyle (shape : Str) : Str :=
  if shape = s2l "circle" then s2l "ellipse;whiteSpace=wrap;html=1;"
  else if shape = s2l "roundedRect" then s2l "rounded=1;whiteSpace=wrap;html=1;"
  else s2l "rounded=0;whiteSpace=wrap;html=1;"

/-- The indent level of a mindmap line: the index of the first
non-whitespace character, two spaces making one level. -/
def mindLevel (rawLine : Str) : Nat :=
  (rawLine.takeWhile (fun c => wsChar c)).length / 2

/-- The node one mindmap line creates (`counter` feeds the running
`node${nodeId++}` id). -/
def mindNodeFor (rawLine : Str) (counter : Nat) : MindNode :=
  let level := mindLevel rawLine
  let ls := mindShape (trimStr rawLine)
  { id := s2l "node" ++ natToStr counter, label := ls.1, shape := ls.2,
    level := level, style := mindStyle ls.2,
    fillColor := getLevelColor level,
    strokeColor := getLevelStrokeColor level }

/-- One line of the mindmap scanning loop (operates on the raw,
untrimmed line). -/
def mindStep (st : MindState) (rawLine : Str) : MindState :=
  if (trimStr rawLine).isEmpty then st
  else
    let level := mindLevel rawLine
    let node := mindNodeFor rawLine st.counter
    let stack' := nstackSet st.stack level node.id
    let edges' :=
      if level > 0 then
        match nstackGet stack' (level - 1) with
        | some parent =>
          st.edges ++ [{ id := 'e' :: natToStr (st.edges.length + 1),
                         source := parent, target := node.id, label := [],
                         arrowType := none }]
        | none => st.edges
      else st.edges
    { nodes := st.nodes ++ [node], edges := edges', stack := stack',
      counter := st.counter + 1 }

/-- `parseMindmap` (receives the original, indentation-preserving
lines; the result's constant `direction` field is `LR`). -/
def parseMindmap (lines : List Str) : Diagram :=
  let final := (lines.drop 1).foldl mindStep
    { nodes := [], edges := [], stack := [], counter := 0 }
  Diagram.mindmap final.nodes final.edges (s2l "LR")

/-! ## detectDiagramType and parseMermaid -/

/-- The direction tokens of `/\b(td|tb|bt|lr|rl)\b/i` in alternation
order (the tested line is already lowercased). -/
def dirToks : List Str := [s2l "td", s2l "tb", s2l "bt", s2l "lr", s2l "rl"]

/-- Try a direction token at one position, including the trailing `\b`
(next character absent or a non-word character). -/
def dirTokAt (s : Str) : Option Str :=
  (dirToks.filter (fun t =>
    strStarts t s &&
      (match s.drop t.length with
       | [] => true
       | c :: _ => !wordChar c))).head?

/-- Scan for `\b(td|tb|bt|lr|rl)\b`, tracking whether the previous
character was a word character (for the leading `\b`). -/
def findDirGo (prevWord : Bool) : Str → Option Str
  | [] => none
  | c :: t =>
    (if prevWord then none else dirTokAt (c :: t)) <|> findDirGo (wordChar c) t

/-- `/\b(td|tb|bt|lr|rl)\b/i.exec(firstLine)`: the leftmost match. -/
def findDir (s : Str) : Option Str := findDirGo false s

/-- `detectDiagramType`: the type token and, for flow-style firsts, the
uppercased direction with default `TD`; `direction` is `none` (JS
`null`) for every other type. -/
def detectDiagramType (lines : List Str) : Str × Option Str :=
  let firstLine := toLowerStr (trimStr (lines.headD []))
  if strStarts (s2l "flowchart") firstLine || strStarts (s2l "graph") firstLine then
    (s2l "flowchart", some (((findDir firstLine).map toUpperStr).getD (s2l "TD")))
  else if strStarts (s2l "sequencediagram") firstLine then (s2l "sequence", none)
  else if strStarts (s2l "classdiagram") firstLine then (s2l "class", none)
  else if strStarts (s2l "erdiagram") firstLine then (s2l "erDiagram", none)
  else if strStarts (s2l "statediagram") firstLine then (s2l "state", none)
  else if strStarts (s2l "gitgraph") firstLine then (s2l "gitgraph", none)
  else if strStarts (s2l "mindmap") firstLine then (s2l "mindmap", none)
  else (s2l "unknown", none)

/-- `strEnds p s`: `p` is a trailing segment of `s`. -/
def strEnds (p s : Str) : Bool := strStarts p.reverse s.reverse

/-- Remove one leading newline (for `^...\n?` fence regexes). -/
def dropNl : Str → Str
  | '\n' :: t => t
  | s => s

/-- `replace(/\n?```$/, '')`: a trailing fence is removed together with
the newline before it when one is present (the greedy `\n?`). -/
def stripTrailFence (s : Str) : Str :=
  if strEnds (s2l "\n```") s then dropLastN 4 s
  else if strEnds (s2l "```") s then dropLastN 3 s
  else s

/-- The fence preprocessing of `parseMermaid`: a ```` ```mermaid ````
fence or a plain ```` ``` ```` fence is stripped. -/
def stripFencesParse (code0 : Str) : Str :=
  if strStarts (s2l "```mermaid") code0 then
    stripTrailFence (dropNl (code0.drop 10))
  else if strStarts (s2l "```") code0 then
    stripTrailFence (dropNl (code0.drop 3))
  else code0

/-- The non-empty (after trimming) lines of a fence-stripped code. -/
def nonBlankLines (code : Str) : List Str :=
  (splitLines code).filter (fun l => !(trimStr l).isEmpty)

/-- The body of `parseMermaid` after fence stripping: the empty-diagram
check, dialect detection, and dispatch (unknown kinds fall back to the
flowchart scanner; the mindmap scanner receives the unfiltered lines). -/
def parseCore (code : Str) : Except Str Diagram :=
  let lines := splitLines code
  let nonEmptyLines := nonBlankLines code
  if nonEmptyLines.isEmpty then Except.error (s2l "Empty Mermaid diagram")
  else
    let det := detectDiagramType nonEmptyLines
    if det.1 = s2l "flowchart" then
      Except.ok (parseFlowchart nonEmptyLines (det.2.getD (s2l "TD")))
    else if det.1 = s2l "sequence" then
      Except.ok (parseSequenceDiagram nonEmptyLines)
    else if det.1 = s2l "erDiagram" then
      Except.ok (parseERDiagram nonEmptyLines)
    else if det.1 = s2l "mindmap" then
      Except.ok (parseMindmap lines)
    else
      Except.ok (parseFlowchart nonEmptyLines (det.2.getD (s2l "TD")))

/-- The non-empty (after trimming) lines `parseMermaid` dispatches on. -/
def parseLines (input : Str) : List Str :=
  nonBlankLines (stripFencesParse (trimStr input))

/-- `parseMermaid`: fence stripping, then `parseCore`. -/
def parseMermaid (input : Str) : Except Str Diagram :=
  parseCore (stripFencesParse (trimStr input))

/-! ## validateMermaid -/

/-- One diagnostic record `{line, issue, suggestion}`. -/
structure VIssue where
  line : Nat
  issue : Str
  suggestion : Str
deriving DecidableEq, Repr

/-- The validator's result record (`nodeCount`/`edgeCount` are the
literal zeroes the validator itself returns; the CLI overwrites them
from a separate best-effort parse). -/
structure ValidationResult where
  isValid : Bool
  compatibility : Str
  issues : List VIssue
  warnings : List VIssue
  nodeCount : Nat
  edgeCount : Nat
deriving DecidableEq, Repr

/-- The `validTypes` table of `validateMermaid`. -/
def validTypes : List Str :=
  [s2l "flowchart", s2l "graph", s2l "sequencediagram", s2l "classdiagram",
   s2l "erdiagram", s2l "statediagram", s2l "gitgraph", s2l "mindmap"]

/-- The missing-declaration blocking issue. -/
def missingTypeIssue : VIssue :=
  { line := 1, issue := s2l "Missing or invalid diagram type declaration",
    suggestion := s2l "Start with flowchart TD, sequenceDiagram, etc." }

/-- The missing-direction warning. -/
def dirWarning : VIssue :=
  { line := 1, issue := s2l "Direction not specified",
    suggestion := s2l "Add direction: TD, LR, RL, or BT" }

/-- The chained-arrows blocking issue at a 1-based line number. -/
def chainedIssue (n : Nat) : VIssue :=
  { line := n, issue := s2l "Chained arrows detected",
    suggestion := s2l "Break into separate lines: A --> B and B --> C" }

/-- The styling warning at a 1-based line number. -/
def stylingWarning (n : Nat) : VIssue :=
  { line := n, issue := s2l "Styling directive found",
    suggestion := s2l "Styling may not convert cleanly to Draw.io" }

/-- The invalid-node-id blocking issue (`Invalid node ID: ${nodeId}`). -/
def invalidIdIssue (n : Nat) (nodeId : Str) : VIssue :=
  { line := n, issue := s2l "Invalid node ID: " ++ nodeId,
    suggestion := s2l "Use only alphanumeric characters and underscores" }

/-- The node-definition id check of one validator-loop line:
match `^\s*(\w+)\s*[\[\(\{]` and flag the captured id when it has a
non-word character. -/
def nodeDefIdCheck (n : Nat) (line : Str) : List VIssue :=
  let a := trimL line
  let id := a.takeWhile (fun c => wordChar c)
  let afterId := trimL (a.drop id.length)
  if !id.isEmpty &&
      (match afterId with
       | c :: _ => openBracketChar c
       | [] => false) then
    if id.all (fun c => wordChar c) then [] else [invalidIdIssue n id]
  else []

/-- The connection-source id check of one validator-loop line:
match `^\s*(\w+)\s*--` and flag the captured id when it has a non-word
character. -/
def connIdCheck (n : Nat) (line : Str) : List VIssue :=
  let a := trimL line
  let id := a.takeWhile (fun c => wordChar c)
  if !id.isEmpty && strStarts (s2l "--") (trimL (a.drop id.length)) then
    if id.all (fun c => wordChar c) then [] else [invalidIdIssue n id]
  else []

/-- Blocking issues contributed by validator-loop line index `i`
(0-based), in push order. -/
def lineIssues (i : Nat) (raw : Str) : List VIssue :=
  let line := trimStr raw
  (if countSub (s2l "-->") line > 1 then [chainedIssue (i + 1)] else [])
    ++ nodeDefIdCheck (i + 1) line ++ connIdCheck (i + 1) line

/-- Warnings contributed by validator-loop line index `i` (0-based). -/
def lineWarnings (i : Nat) (raw : Str) : List VIssue :=
  let line := trimStr raw
  if strStarts (s2l "classDef") line || strStarts (s2l "style ") line then
    [stylingWarning (i + 1)]
  else []

/-- The fence preprocessing of `validateMermaid`: unlike the parser,
only a ```` ```mermaid ```` fence is stripped. -/
def stripFencesValidate (code0 : Str) : Str :=
  if strStarts (s2l "```mermaid") code0 then
    stripTrailFence (dropNl (code0.drop 10))
  else code0

/-- The lines `validateMermaid` scans. -/
def validateLinesOf (input : Str) : List Str :=
  splitLines (stripFencesValidate (trimStr input))

/-- The validator body after splitting into lines. -/
def validateLines (lines : List Str) : ValidationResult :=
  let firstLine := toLowerStr (trimStr (lines.headD []))
  let typeIssues :=
    if validTypes.any (fun t => strStarts t firstLine) then []
    else [missingTypeIssue]
  let dirWarnings :=
    if (strStarts (s2l "flowchart") firstLine || strStarts (s2l "graph") firstLine)
        && (findDir firstLine).isNone then
      [dirWarning]
    else []
  let issues := typeIssues ++ (lines.enum.map (fun p => lineIssues p.1 p.2)).flatten
  let warnings := dirWarnings ++ (lines.enum.map (fun p => lineWarnings p.1 p.2)).flatten
  { isValid := issues.isEmpty,
    compatibility :=
      if issues.isEmpty then
        (if warnings.isEmpty then s2l "high" else s2l "medium")
      else s2l "low",
    issues := issues, warnings := warnings, nodeCount := 0, edgeCount := 0 }

/-- `validateMermaid`. -/
def validateMermaid (input : Str) : ValidationResult :=
  validateLines (validateLinesOf input)

/-! ## convertToDrawio Start/Stop synthesis (drawio-converter.js)

`convertToDrawio` copies the parsed flowchart's node and edge arrays
and, before computing any geometry, synthesizes terminal nodes:
`drawioPrepare` is exactly that preprocessing on the copied arrays. -/

/-- In-degree of a node id within an edge list (the length of the
`inEdges` bucket `convertToDrawio` builds). -/
def indegOf (edges : List Edge) (id : Str) : Nat :=
  (edges.filter (fun e => e.target = id)).length

/-- Out-degree of a node id within an edge list. -/
def outdegOf (edges : List Edge) (id : Str) : Nat :=
  (edges.filter (fun e => e.source = id)).length

/-- `hasStartNode`: a node with literal id `Start` or label lowercasing
to `start`. -/
def hasStartNode (nodes : List Node) : Bool :=
  nodes.any (fun n => n.id = s2l "Start" || toLowerStr n.label = s2l "start")

/-- `hasStopNode`: a node with literal id `Stop` or `End`, or label
lowercasing to `stop` or `end`. -/
def hasStopNode (nodes : List Node) : Bool :=
  nodes.any (fun n =>
    n.id = s2l "Stop" || n.id = s2l "End" ||
    toLowerStr n.label = s2l "stop" || toLowerStr n.label = s2l "end")

/-- The synthesized `Start` stadium node. -/
def synthStartNode : Node :=
  { id := s2l "Start", label := s2l "Start", shape := s2l "stadium",
    style := stadiumMapping.style, fillColor := stadiumMapping.fillColor,
    strokeColor := stadiumMapping.strokeColor }

/-- The synthesized `Stop` stadium node (red fill). -/
def synthStopNode : Node :=
  { id := s2l "Stop", label := s2l "Stop", shape := s2l "stadium",
    style := stadiumMapping.style, fillColor := s2l "#f8cecc",
    strokeColor := s2l "#b85450" }

/-- The synthesized wiring edge from `Start` to a zero-indegree node. -/
def startEdgeFor (n : Node) : Edge :=
  { id := s2l "e_start_" ++ n.id, source := s2l "Start", target := n.id,
    label := [], arrowType := none }

/-- The synthesized wiring edge from a zero-outdegree node to `Stop`. -/
def stopEdgeFor (n : Node) : Edge :=
  { id := s2l "e_" ++ n.id ++ s2l "_stop", source := n.id,
    target := s2l "Stop", label := [], arrowType := none }

/-- The Start/Stop synthesis `convertToDrawio` performs on a parsed
flowchart's nodes and edges: `startNodes`/`endNodes` and the two
presence flags are computed from the original arrays; a missing `Start`
is unshifted to the front with its edges unshifted one by one (so they
end up reversed at the front), a missing `Stop` is pushed to the back
with its edges appended in `endNodes` order. -/
def drawioPrepare (nodes : List Node) (edges : List Edge) :
    List Node × List Edge :=
  let startNodes := nodes.filter (fun n => indegOf edges n.id = 0)
  let endNodes := nodes.filter (fun n => outdegOf edges n.id = 0)
  let addStart := !hasStartNode nodes && !startNodes.isEmpty
  let nodes1 := if addStart then synthStartNode :: nodes else nodes
  let edges1 :=
    if addStart then startNodes.foldl (fun acc n => startEdgeFor n :: acc) edges
    else edges
  let addStop := !hasStopNode nodes && !endNodes.isEmpty
  let nodes2 := if addStop then nodes1 ++ [synthStopNode] else nodes1
  let edges2 := if addStop then edges1 ++ endNodes.map stopEdgeFor else edges1
  (nodes2, edges2)

/-! ## calculatePositions Step 1: cycle-tolerant level assignment

`calculatePositions` first builds `outEdges`/`inEdges` adjacency maps,
picks the roots, and runs the recursive `assignLevels` DFS.  The JS
recursion is embedded with a structural fuel argument bounding the
recursion depth; `calcLevelFuel` below is proved sufficient, so the
fuel-exhaustion value `none` is never produced. -/

/-- The mutable state threaded through `assignLevels`. -/
structure LvSt where
  nodeLevel : List (Str × Nat)
  visited : List Str
  inStack : List Str
deriving DecidableEq, Repr

/-- The `outEdges` map: every node id starts with an empty bucket and
each edge appends its target to its source's bucket (if present). -/
def buildOutEdges (nodes : List Node) (edges : List Edge) :
    List (Str × List Str) :=
  edges.foldl
    (fun m e =>
      (mapGet m e.source).elim m (fun l => mapSet m e.source (l ++ [e.target])))
    (nodes.foldl (fun m n => mapSet m n.id []) [])

/-- The `inEdges` map (only bucket sizes are consumed). -/
def buildInEdges (nodes : List Node) (edges : List Edge) :
    List (Str × List Str) :=
  edges.foldl
    (fun m e =>
      (mapGet m e.target).elim m (fun l => mapSet m e.target (l ++ [e.source])))
    (nodes.foldl (fun m n => mapSet m n.id []) [])

/-- The DFS `assignLevels(nodeId, level, visited, inStack)`: a node on
the traversal stack is not re-entered; an off-stack revisit proceeds
only on a strictly longer path; otherwise the node is marked, its level
maximized, its children explored one level deeper, and it is popped. -/
def assignLevels (outE : List (Str × List Str)) :
    Nat → Str → Nat → LvSt → Option LvSt
  | 0, _, _, _ => none
  | Nat.succ fuel, nid, level, st =>
    if nid ∈ st.inStack then some st
    else
      let revisitStop :=
        decide (nid ∈ st.visited) &&
          (mapGet st.nodeLevel nid).elim true (fun cur => decide (level ≤ cur))
      if revisitStop then some st
      else
        let nl1 :=
          if nid ∈ st.visited then mapSet st.nodeLevel nid level
          else st.nodeLevel
        let st2 : LvSt :=
          { nodeLevel := mapSet nl1 nid (max (mapGetD nl1 nid 0) level),
            visited := insertS nid st.visited,
            inStack := insertS nid st.inStack }
        let children := mapGetD outE nid []
        let afterKids :=
          children.foldl
            (fun acc c => acc.bind (fun s => assignLevels outE fuel c (level + 1) s))
            (some st2)
        afterKids.map (fun s3 => { s3 with inStack := removeS nid s3.inStack })

/-- The id universe every `assignLevels` argument lives in: node ids
plus edge targets. -/
def levelUniverse (nodes : List Node) (edges : List Edge) : List Str :=
  nodes.map Node.id ++ edges.map Edge.target

/-- Fuel sufficient for the DFS depth: one more than the number of
distinct reachable ids. -/
def calcLevelFuel (nodes : List Node) (edges : List Edge) : Nat :=
  (levelUniverse nodes edges).dedup.length + 1

/-- The `roots` array: zero-indegree nodes, or the first node when
there is none. -/
def levelRoots (nodes : List Node) (edges : List Edge) : List Node :=
  let inE := buildInEdges nodes edges
  let roots := nodes.filter (fun n => (mapGetD inE n.id []).isEmpty)
  if roots.isEmpty then
    match nodes with
    | n :: _ => [n]
    | [] => []
  else roots

/-- `roots.forEach((root) => assignLevels(root.id, 0, ...))`. -/
def runRoots (outE : List (Str × List Str)) (fuel : Nat) :
    List Node → LvSt → Option LvSt
  | [], st => some st
  | r :: rs, st =>
    (assignLevels outE fuel r.id 0 st).bind (fun s => runRoots outE fuel rs s)

/-- The traversal part of Step 1 (before the unvisited-node default). -/
def calcLevelsRun (nodes : List Node) (edges : List Edge) : Option LvSt :=
  runRoots (buildOutEdges nodes edges) (calcLevelFuel nodes edges)
    (levelRoots nodes edges)
    { nodeLevel := [], visited := [], inStack := [] }

/-- The closing loop of Step 1: every node the traversal never labeled
defaults to level 0. -/
def defaultLevels (nodes : List Node) (m : List (Str × Nat)) :
    List (Str × Nat) :=
  nodes.foldl
    (fun acc n => if mapHas acc n.id then acc else mapSet acc n.id 0) m

/-- Step 1 of `calculatePositions` end to end: the level map, or `none`
on fuel exhaustion (shown impossible below). -/
def calcNodeLevels (nodes : List Node) (edges : List Edge) :
    Option (List (Str × Nat)) :=
  (calcLevelsRun nodes edges).map (fun st => defaultLevels nodes st.nodeLevel)

/-! ## Spec-side definitions and projections used by the claims -/

/-- Modelled from the spec: the keyword-to-dialect table — a first line
starting (case-insensitively) with `flowchart`/`graph` is the flowchart
dialect, `sequenceDiagram` the sequence dialect, `erDiagram` the ER
dialect, `mindmap` the mindmap dialect, and any other keyword falls
back to `flowchart`.  Used to compare `parseMermaid`'s dispatch against
the spec's wording. -/
def expectedKind (firstLine : Str) : Str :=
  let fl := toLowerStr (trimStr firstLine)
  if strStarts (s2l "flowchart") fl || strStarts (s2l "graph") fl then
    s2l "flowchart"
  else if strStarts (s2l "sequencediagram") fl then s2l "sequence"
  else if strStarts (s2l "erdiagram") fl then s2l "erDiagram"
  else if strStarts (s2l "mindmap") fl then s2l "mindmap"
  else s2l "flowchart"

/-- The result type produced by `parseCore`'s dispatch for a detected
type token: the sequence/ER/mindmap tokens keep their kind, every other
token (including `class`, `state`, `gitgraph`, `unknown`) lands in the
flowchart scanner. -/
def dispatchKind (t : Str) : Str :=
  if t = s2l "sequence" then t
  else if t = s2l "erDiagram" then t
  else if t = s2l "mindmap" then t
  else s2l "flowchart"

/-- The first non-empty line `parseMermaid` dispatches on. -/
def firstParseLine (input : Str) : Str := (parseLines input).headD []

/-- A node carrying the literal id or label `Start`/`Stop`/`End`
case-insensitively (the skip condition in the claim's wording; it
implies both of the code's `hasStartNode`/`hasStopNode` flags). -/
def carriesTerminalName (n : Node) : Bool :=
  toLowerStr n.id = s2l "start" || toLowerStr n.id = s2l "stop" ||
  toLowerStr n.id = s2l "end" ||
  toLowerStr n.label = s2l "start" || toLowerStr n.label = s2l "stop" ||
  toLowerStr n.label = s2l "end"

/-- The nodes and edges of a successfully parsed flowchart (empty
payload otherwise). -/
def flowPayload : Except Str Diagram → List Node × List Edge
  | .ok (Diagram.flowchart _ ns es _) => (ns, es)
  | _ => ([], [])

/-- The node ids of a successful parse (`[]` on error). -/
def parsedNodeIds : Except Str Diagram → List Str
  | .ok d => d.nodeIds
  | .error _ => []

/-- The edge endpoints of a successful parse (`[]` on error). -/
def parsedEdgeEnds : Except Str Diagram → List (Str × Str)
  | .ok d => d.edgeEndpoints
  | .error _ => []

/-- The number of ids of the universe not yet on the traversal stack:
the decreasing measure of the `assignLevels` recursion. -/
def freeCount (uni : List Str) (inStack : List Str) : Nat :=
  (uni.dedup.filter (fun x => x ∉ inStack)).length

/-- Wrapping a diagram body in a plain (untagged) triple-backtick
fence. -/
def fenceWrap (mid : Str) : Str := s2l "```" ++ ('\n' :: mid) ++ ('\n' :: s2l "```")

/-! # Theorems

Base lemmas about the embedded container and string operations, then
one theorem per specification claim (with counterexamples and witnesses
where required). -/

theorem mapGet_mapSet {α : Type} (m : List (Str × α)) (k : Str) (v : α)
    (k2 : Str) :
    mapGet (mapSet m k v) k2 = if k2 = k then some v else mapGet m k2 := by
  induction m with
  | nil =>
    simp only [mapSet, mapGet]
    by_cases h : k2 = k
    · subst h; simp
    · have h' : ¬(k = k2) := fun hh => h hh.symm
      simp [h, h']
  | cons p t ih =>
    obtain ⟨k', v'⟩ := p
    simp only [mapSet]
    by_cases hk : k' = k
    · subst hk
      simp only [if_pos rfl, mapGet]
      by_cases h2 : k2 = k'
      · subst h2; simp
      · have h' : ¬(k' = k2) := fun hh => h2 hh.symm
        simp [h2, h']
    · simp only [if_neg hk, mapGet]
      by_cases h2 : k' = k2
      · subst h2
        simp [hk]
      · simp [h2, ih]

theorem mapGet_mem {α : Type} {m : List (Str × α)} {k : Str} {v : α}
    (h : mapGet m k = some v) : (k, v) ∈ m := by
  induction m with
  | nil => simp [mapGet] at h
  | cons p t ih =>
    obtain ⟨k', v'⟩ := p
    by_cases hk : k' = k
    · subst hk
      simp [mapGet] at h
      simp [h]
    · simp [mapGet, hk] at h
      exact List.mem_cons_of_mem _ (ih h)

theorem mem_mapValues {α : Type} {m : List (Str × α)} {k : Str} {v : α}
    (h : (k, v) ∈ m) : v ∈ mapValues m := by
  simp only [mapValues]
  exact List.mem_map_of_mem Prod.snd h

theorem mapHas_of_get {α : Type} {m : List (Str × α)} {k : Str} {v : α}
    (h : mapGet m k = some v) : mapHas m k = true := by
  simp [mapHas, h]

theorem mapHas_mapSet {α : Type} (m : List (Str × α)) (k : Str) (v : α)
    (k2 : Str) (h : mapHas m k2 = true) :
    mapHas (mapSet m k v) k2 = true := by
  by_cases hk : k2 = k <;> simp [mapHas, mapGet_mapSet, hk] at h ⊢
  exact h

theorem mapHas_mapSet_self {α : Type} (m : List (Str × α)) (k : Str)
    (v : α) : mapHas (mapSet m k v) k = true := by
  simp [mapHas, mapGet_mapSet]

theorem strStarts_append_self (p r : Str) : strStarts p (p ++ r) = true := by
  induction p with
  | nil => simp [strStarts]
  | cons c t ih => simp [strStarts, ih]

theorem delimMatch_exact (m : ShapeMapping) (lab : Str) (hne : lab ≠ [])
    (hbad : ∀ c ∈ lab, c ≠ m.badChar) :
    delimMatch m (m.openDelim ++ (lab ++ m.closeDelim)) = some lab := by
  have hmid : dropLastN m.closeDelim.length
      ((m.openDelim ++ (lab ++ m.closeDelim)).drop m.openDelim.length) = lab := by
    rw [List.drop_left, dropLastN, List.length_append, Nat.add_sub_cancel,
      List.take_left]
  have hA : strStarts m.openDelim (m.openDelim ++ (lab ++ m.closeDelim)) = true :=
    strStarts_append_self _ _
  have hB : strStarts m.closeDelim.reverse
      (m.openDelim ++ (lab ++ m.closeDelim)).reverse = true := by
    rw [List.reverse_append, List.reverse_append, List.append_assoc]
    exact strStarts_append_self _ _
  have hE : lab.isEmpty = false := by
    cases lab with
    | nil => exact absurd rfl hne
    | cons c t => rfl
  have hAll : lab.all (fun c => c ≠ m.badChar) = true := by
    simp only [List.all_eq_true, decide_eq_true_eq]
    exact hbad
  simp only [delimMatch, hmid, hA, hB, hE, hAll, Bool.not_false, Bool.and_self,
    if_true, Bool.true_and, Bool.and_true, if_pos]

theorem tryShapes_head (m : ShapeMapping) (rest : List ShapeMapping) (s : Str)
    (body : Str) (h : delimMatch m s = some body) :
    tryShapes (m :: rest) s =
      some { shape := m.shapeName, label := trimStr body, style := m.style,
             fillColor := m.fillColor, strokeColor := m.strokeColor } := by
  simp [tryShapes, h]

theorem tryShapes_skip (m : ShapeMapping) (rest : List ShapeMapping) (s : Str)
    (h : delimMatch m s = none) :
    tryShapes (m :: rest) s = tryShapes rest s := by
  simp [tryShapes, h]

/-- C5 counterexample: for the label text `a]b`, the fragment
`([a]b])` is NOT parsed as a stadium — the stadium pattern's body class
`[^\]]+` cannot cross the `]`, and the fragment falls through to the
roundedRect pattern, contradicting the claim's universal "never
roundedRect" for `([Label])` fragments. -/
theorem claim5_counterexample :
    (parseNodeShape (s2l "([" ++ (s2l "a]b" ++ s2l "])"))).shape =
      s2l "roundedRect" := by rfl

/-- C5 (amended): for every nonempty label containing no `]`, the
fragment `([Label])` parses as a stadium (hence never roundedRect); for
every nonempty label containing no `)`, `((Label))` parses as a circle
(hence never roundedRect); for every nonempty label containing no `]`,
`[[Label]]` parses as a subroutine (hence never rectangle); and any
fragment matching none of the six shape patterns defaults to a
rectangle with the trimmed raw text as label. -/
theorem claim5_shape_precedence :
    (∀ lab : Str, lab ≠ [] → (∀ c ∈ lab, c ≠ ']') →
      (parseNodeShape (s2l "([" ++ (lab ++ s2l "])"))).shape = s2l "stadium") ∧
    (∀ lab : Str, lab ≠ [] → (∀ c ∈ lab, c ≠ ')') →
      (parseNodeShape (s2l "((" ++ (lab ++ s2l "))"))).shape = s2l "circle") ∧
    (∀ lab : Str, lab ≠ [] → (∀ c ∈ lab, c ≠ ']') →
      (parseNodeShape (s2l "[[" ++ (lab ++ s2l "]]"))).shape = s2l "subroutine") ∧
    (∀ s : Str, tryShapes SHAPE_MAPPINGS s = none →
      parseNodeShape s =
        { shape := s2l "rectangle", label := trimStr s,
          style := rectangleMapping.style,
          fillColor := rectangleMapping.fillColor,
          strokeColor := rectangleMapping.strokeColor }) := by
  refine ⟨?_, ?_, ?_, ?_⟩
  · intro lab hne hbad
    have hd : delimMatch stadiumMapping (s2l "([" ++ (lab ++ s2l "])")) = some lab :=
      delimMatch_exact stadiumMapping lab hne hbad
    have ht : tryShapes SHAPE_MAPPINGS (s2l "([" ++ (lab ++ s2l "])")) =
        some { shape := stadiumMapping.shapeName, label := trimStr lab,
               style := stadiumMapping.style,
               fillColor := stadiumMapping.fillColor,
               strokeColor := stadiumMapping.strokeColor } := by
      rw [SHAPE_MAPPINGS]
      exact tryShapes_head _ _ _ _ hd
    simp [parseNodeShape, ht]
    rfl
  · intro lab hne hbad
    have h1 : delimMatch stadiumMapping (s2l "((" ++ (lab ++ s2l "))")) = none := rfl
    have hd : delimMatch circleMapping (s2l "((" ++ (lab ++ s2l "))")) = some lab :=
      delimMatch_exact circleMapping lab hne hbad
    have ht : tryShapes SHAPE_MAPPINGS (s2l "((" ++ (lab ++ s2l "))")) =
        some { shape := circleMapping.shapeName, label := trimStr lab,
               style := circleMapping.style,
               fillColor := circleMapping.fillColor,
               strokeColor := circleMapping.strokeColor } := by
      rw [SHAPE_MAPPINGS, tryShapes_skip _ _ _ h1]
      exact tryShapes_head _ _ _ _ hd
    simp [parseNodeShape, ht]
    rfl
  · intro lab hne hbad
    have h1 : delimMatch stadiumMapping (s2l "[[" ++ (lab ++ s2l "]]")) = none := rfl
    have h2 : delimMatch circleMapping (s2l "[[" ++ (lab ++ s2l "]]")) = none := rfl
    have hd : delimMatch subroutineMapping (s2l "[[" ++ (lab ++ s2l "]]")) = some lab :=
      delimMatch_exact subroutineMapping lab hne hbad
    have ht : tryShapes SHAPE_MAPPINGS (s2l "[[" ++ (lab ++ s2l "]]")) =
        some { shape := subroutineMapping.shapeName, label := trimStr lab,
               style := subroutineMapping.style,
               fillColor := subroutineMapping.fillColor,
               strokeColor := subroutineMapping.strokeColor } := by
      rw [SHAPE_MAPPINGS, tryShapes_skip _ _ _ h1, tryShapes_skip _ _ _ h2]
      exact tryShapes_head _ _ _ _ hd
    simp [parseNodeShape, ht]
    rfl
  · intro s hnone
    simp [parseNodeShape, hnone]

/-- C5 witness: the amended precedence statements at the concrete
labels `Go` and `X`, and the default at the fragment `plain`. -/
theorem claim5_witness :
    (parseNodeShape (s2l "([" ++ (s2l "Go" ++ s2l "])"))).shape = s2l "stadium" ∧
    (parseNodeShape (s2l "((" ++ (s2l "X" ++ s2l "))"))).shape = s2l "circle" ∧
    (parseNodeShape (s2l "[[" ++ (s2l "X" ++ s2l "]]"))).shape = s2l "subroutine" ∧
    parseNodeShape (s2l "plain") =
      { shape := s2l "rectangle", label := trimStr (s2l "plain"),
        style := rectangleMapping.style,
        fillColor := rectangleMapping.fillColor,
        strokeColor := rectangleMapping.strokeColor } :=
  ⟨claim5_shape_precedence.1 (s2l "Go") (by decide) (by decide),
   claim5_shape_precedence.2.1 (s2l "X") (by decide) (by decide),
   claim5_shape_precedence.2.2.1 (s2l "X") (by decide) (by decide),
   claim5_shape_precedence.2.2.2 (s2l "plain") (by rfl)⟩

theorem upsertNode_preserves (m : List (Str × Node)) (key : Str)
    (inline : Option Node) (id : Str) (nd : Node)
    (hget : mapGet m id = some nd) (h : key = id → inline = none) :
    mapGet (upsertNode m key inline) id = some nd := by
  cases hsn : inline with
  | some n =>
    have hne : ¬(id = key) := by
      intro he
      have := h he.symm
      rw [hsn] at this
      exact Option.noConfusion this
    rw [upsertNode, mapGet_mapSet, if_neg hne]
    exact hget
  | none =>
    by_cases hh : mapHas m key = true
    · simp [upsertNode, hh, hget]
    · have hne : ¬(id = key) := by
        intro he
        subst he
        exact hh (mapHas_of_get hget)
      simp only [upsertNode, hh, if_neg, Bool.false_eq_true, if_false]
      rw [mapGet_mapSet, if_neg hne]
      exact hget

theorem upsertNode_has_self (m : List (Str × Node)) (key : Str)
    (inline : Option Node) : mapHas (upsertNode m key inline) key = true := by
  cases inline with
  | some n => simp [upsertNode, mapHas_mapSet_self]
  | none =>
    by_cases hh : mapHas m key = true
    · simp [upsertNode, hh]
    · simp only [upsertNode, hh, Bool.false_eq_true, if_false]
      exact mapHas_mapSet_self _ _ _

theorem upsertNode_mono (m : List (Str × Node)) (key : Str)
    (inline : Option Node) (k2 : Str) (h : mapHas m k2 = true) :
    mapHas (upsertNode m key inline) k2 = true := by
  cases inline with
  | some n => simpa [upsertNode] using mapHas_mapSet m key n k2 h
  | none =>
    by_cases hh : mapHas m key = true
    · simpa [upsertNode, hh]
    · simp only [upsertNode, hh, Bool.false_eq_true, if_false]
      exact mapHas_mapSet _ _ _ _ h

theorem connStep_preserves (st : FlowState) (conn : Connection) (id : Str)
    (nd : Node) (hget : mapGet st.nodes id = some nd)
    (hs : conn.source = id → conn.sourceNode = none)
    (ht : conn.target = id → conn.targetNode = none) :
    mapGet (connStep st conn).nodes id = some nd := by
  simp only [connStep]
  exact upsertNode_preserves _ _ _ _ _
    (upsertNode_preserves _ _ _ _ _ hget hs) ht

/-- C6: in flowchart parsing, a later bare (shapeless) reference to an
already-recorded node never overwrites the node's stored shape record
(a single scanning step whose line carries no inline shape for `id` and
no standalone re-declaration of `id` leaves the map entry of `id`
unchanged); in particular, parsing
`flowchart TD\nA[Shape1] --> B\nA --> C` leaves node `A` with the shape
information derived from `[Shape1]`. -/
theorem claim6_bare_ref_keeps_shape :
    (∀ (st : FlowState) (l : Str) (id : Str) (nd : Node),
      mapGet st.nodes id = some nd →
      (∀ conn, parseConnection (trimStr l) = some conn →
        (conn.source = id → conn.sourceNode = none) ∧
        (conn.target = id → conn.targetNode = none)) →
      (∀ g grp, nodeDefMatch (trimStr l) = some (g, grp) → g ≠ id) →
      mapGet (flowStep st l).nodes id = some nd) ∧
    (flowPayload (parseMermaid
        (s2l "flowchart TD\nA[Shape1] --> B\nA --> C"))).1.find?
        (fun n => n.id = s2l "A") =
      some (nodeOfShape (s2l "A") (parseNodeShape (s2l "[Shape1]"))) := by
  constructor
  · intro st l id nd hget hconn hdef
    simp only [flowStep]
    split
    · exact hget
    · split
      · split
        · exact hget
        · exact hget
      · split
        · split
          · exact hget
          · exact hget
        · split
          · rename_i conn hc
            exact connStep_preserves st conn id nd hget
              ((hconn conn hc).1) ((hconn conn hc).2)
          · split
            · rename_i g grp hm
              have hne : ¬(id = g) := fun he => (hdef g grp hm) he.symm
              split
              · simp only []
                rw [mapGet_mapSet, if_neg hne]
                exact hget
              · simp only []
                rw [mapGet_mapSet, if_neg hne]
                exact hget
            · exact hget
  · rfl

/-- C6 witness: the preservation step applied to a state holding node
`A` with the `[Shape1]` shape record and the bare line `A --> C`. -/
theorem claim6_witness :
    mapGet (flowStep
      { nodes := [(s2l "A", nodeOfShape (s2l "A") (parseNodeShape (s2l "[Shape1]")))],
        edges := [], subgraphs := [], current := none }
      (s2l "A --> C")).nodes (s2l "A") =
      some (nodeOfShape (s2l "A") (parseNodeShape (s2l "[Shape1]"))) := by
  apply claim6_bare_ref_keeps_shape.1
  · rfl
  · intro conn hc
    rw [show parseConnection (trimStr (s2l "A --> C")) =
        some { source := s2l "A", target := s2l "C", label := [],
               arrowType := parseArrow (s2l "-->"), sourceNode := none,
               targetNode := none } from rfl] at hc
    cases hc
    exact ⟨fun _ => rfl, fun _ => rfl⟩
  · intro g grp hm
    rw [show nodeDefMatch (trimStr (s2l "A --> C")) = none from rfl] at hm
    exact Option.noConfusion hm

theorem strStarts_cons_elim {c : Char} {p s : Str}
    (h : strStarts (c :: p) s = true) : ∃ t, s = c :: t := by
  cases s with
  | nil => exact absurd h (by simp [strStarts])
  | cons d t =>
    simp only [strStarts, Bool.and_eq_true, decide_eq_true_eq] at h
    exact ⟨t, by rw [h.1]⟩

theorem dispatchKind_mem (t : Str) :
    dispatchKind t ∈ [s2l "flowchart", s2l "sequence", s2l "erDiagram",
      s2l "mindmap"] := by
  by_cases h1 : t = s2l "sequence"
  · simp [dispatchKind, h1]
  · by_cases h2 : t = s2l "erDiagram"
    · simp [dispatchKind, h1, h2]
    · by_cases h3 : t = s2l "mindmap"
      · simp [dispatchKind, h1, h2, h3]
      · simp [dispatchKind, h1, h2, h3]

theorem expectedKind_eq (lines : List Str) :
    dispatchKind (detectDiagramType lines).1 = expectedKind (lines.headD []) := by
  simp only [detectDiagramType, expectedKind]
  set fl := toLowerStr (trimStr (lines.headD [])) with hfl
  by_cases h1 : (strStarts (s2l "flowchart") fl || strStarts (s2l "graph") fl) = true
  · simp only [h1, if_true]
    rfl
  · simp only [Bool.or_eq_true, not_or, Bool.not_eq_true] at h1
    obtain ⟨h1a, h1b⟩ := h1
    by_cases h2 : strStarts (s2l "sequencediagram") fl = true
    · simp only [h1a, h1b, h2, Bool.false_eq_true, or_self, if_false, if_true]
      rfl
    · rw [Bool.not_eq_true] at h2
      by_cases h3 : strStarts (s2l "classdiagram") fl = true
      · obtain ⟨t, ht⟩ := strStarts_cons_elim
          (show strStarts ('c' :: s2l "lassdiagram") fl = true from h3)
        have he : strStarts (s2l "erdiagram") fl = false := by rw [ht]; rfl
        have hm : strStarts (s2l "mindmap") fl = false := by rw [ht]; rfl
        simp only [h1a, h1b, h2, h3, he, hm, Bool.false_eq_true, or_self,
          if_false, if_true]
        rfl
      · rw [Bool.not_eq_true] at h3
        by_cases h4 : strStarts (s2l "erdiagram") fl = true
        · simp only [h1a, h1b, h2, h3, h4, Bool.false_eq_true, or_self,
            if_false, if_true]
          rfl
        · rw [Bool.not_eq_true] at h4
          by_cases h5 : strStarts (s2l "statediagram") fl = true
          · obtain ⟨t, ht⟩ := strStarts_cons_elim
              (show strStarts ('s' :: s2l "tatediagram") fl = true from h5)
            have hm : strStarts (s2l "mindmap") fl = false := by rw [ht]; rfl
            simp only [h1a, h1b, h2, h3, h4, h5, hm, Bool.false_eq_true,
              or_self, if_false, if_true]
            rfl
          · rw [Bool.not_eq_true] at h5
            by_cases h6 : strStarts (s2l "gitgraph") fl = true
            · obtain ⟨t, ht⟩ := strStarts_cons_elim
                (show strStarts ('g' :: s2l "itgraph") fl = true from h6)
              have hm : strStarts (s2l "mindmap") fl = false := by rw [ht]; rfl
              simp only [h1a, h1b, h2, h3, h4, h5, h6, hm, Bool.false_eq_true,
                or_self, if_false, if_true]
              rfl
            · rw [Bool.not_eq_true] at h6
              by_cases h7 : strStarts (s2l "mindmap") fl = true
              · simp only [h1a, h1b, h2, h3, h4, h5, h6, h7,
                  Bool.false_eq_true, or_self, if_false, if_true]
                rfl
              · rw [Bool.not_eq_true] at h7
                simp only [h1a, h1b, h2, h3, h4, h5, h6, h7,
                  Bool.false_eq_true, or_self, if_false]
                rfl

theorem parseCore_ok_type (code : Str) (h : nonBlankLines code ≠ []) :
    ∃ r, parseCore code = Except.ok r ∧
      r.typeStr = dispatchKind (detectDiagramType (nonBlankLines code)).1 := by
  have hne : (nonBlankLines code).isEmpty = false := by
    cases hnb : nonBlankLines code with
    | nil => exact absurd hnb h
    | cons a t => rfl
  simp only [parseCore, hne, Bool.false_eq_true, if_false]
  set det := detectDiagramType (nonBlankLines code) with hdet
  by_cases h1 : det.1 = s2l "flowchart"
  · refine ⟨_, by rw [if_pos h1], ?_⟩
    rw [h1]
    rfl
  · rw [if_neg h1]
    by_cases h2 : det.1 = s2l "sequence"
    · refine ⟨_, by rw [if_pos h2], ?_⟩
      rw [h2]
      rfl
    · rw [if_neg h2]
      by_cases h3 : det.1 = s2l "erDiagram"
      · refine ⟨_, by rw [if_pos h3], ?_⟩
        rw [h3]
        rfl
      · rw [if_neg h3]
        by_cases h4 : det.1 = s2l "mindmap"
        · refine ⟨_, by rw [if_pos h4], ?_⟩
          rw [h4]
          rfl
        · rw [if_neg h4]
          refine ⟨_, rfl, ?_⟩
          simp [dispatchKind, h2, h3, h4]
          rfl

/-- C4: whenever `parseMermaid` succeeds, the result's `type` equals
the dialect the (fence-stripped) first non-empty line's keyword selects
per the spec table — `flowchart`/`graph` to flowchart,
`sequenceDiagram` to sequence, `erDiagram` to erDiagram, `mindmap` to
mindmap, and every other keyword falling back to flowchart — and the
returned type string is always one of
`flowchart`/`sequence`/`erDiagram`/`mindmap`. -/
theorem claim4_dialect_dispatch :
    ∀ (input : Str) (r : Diagram), parseMermaid input = Except.ok r →
      r.typeStr = expectedKind (firstParseLine input) ∧
      r.typeStr ∈ [s2l "flowchart", s2l "sequence", s2l "erDiagram",
        s2l "mindmap"] := by
  intro input r h
  have hcode : parseCore (stripFencesParse (trimStr input)) = Except.ok r := h
  set code := stripFencesParse (trimStr input) with hc
  by_cases hnb : nonBlankLines code = []
  · have hz : (nonBlankLines code).isEmpty = true := by rw [hnb]; rfl
    have : parseCore code = Except.error (s2l "Empty Mermaid diagram") := by
      simp [parseCore, hz]
    rw [this] at hcode
    exact Except.noConfusion hcode
  · obtain ⟨r0, hok, hty⟩ := parseCore_ok_type code hnb
    rw [hok] at hcode
    have hr : r0 = r := by
      injection hcode
    subst hr
    constructor
    · rw [hty, expectedKind_eq, firstParseLine, parseLines, ← hc]
    · rw [hty]
      exact dispatchKind_mem _

/-- C4 witness: the concrete input `flowchart TD\nA --> B`. -/
theorem claim4_witness :
    ∃ r, parseMermaid (s2l "flowchart TD\nA --> B") = Except.ok r ∧
      r.typeStr = expectedKind (firstParseLine (s2l "flowchart TD\nA --> B")) ∧
      r.typeStr ∈ [s2l "flowchart", s2l "sequence", s2l "erDiagram",
        s2l "mindmap"] := by
  have h : parseMermaid (s2l "flowchart TD\nA --> B") =
      Except.ok (parseFlowchart (nonBlankLines (s2l "flowchart TD\nA --> B"))
        (s2l "TD")) := rfl
  exact ⟨_, h, (claim4_dialect_dispatch _ _ h).1,
    (claim4_dialect_dispatch _ _ h).2⟩

theorem dispatchKind_id_of_mem (t : Str)
    (h : t ∈ [s2l "flowchart", s2l "sequence", s2l "erDiagram", s2l "mindmap"]) :
    dispatchKind t = t := by
  simp only [List.mem_cons, List.not_mem_nil, or_false] at h
  rcases h with h | h | h | h <;> (rw [h]; rfl)

theorem fenceWrap_trim (mid : Str) : trimStr (fenceWrap mid) = fenceWrap mid := by
  have hrev : (fenceWrap mid).reverse =
      s2l "```" ++ (['\n'] ++ (s2l "```" ++ ('\n' :: mid)).reverse) := by
    simp only [fenceWrap]
    rw [List.reverse_append, List.reverse_cons,
      show (s2l "```").reverse = s2l "```" from rfl, List.append_assoc]
  have ha : trimR (fenceWrap mid) = fenceWrap mid := by
    rw [trimR, hrev]
    rw [show trimL (s2l "```" ++ (['\n'] ++ (s2l "```" ++ ('\n' :: mid)).reverse)) =
        s2l "```" ++ (['\n'] ++ (s2l "```" ++ ('\n' :: mid)).reverse) from rfl]
    rw [← hrev, List.reverse_reverse]
  rw [trimStr, ha]
  rfl

theorem fenceWrap_strip (mid : Str) : stripFencesParse (fenceWrap mid) = mid := by
  have hf1 : strStarts (s2l "```mermaid") (fenceWrap mid) = false := rfl
  have hf2 : strStarts (s2l "```") (fenceWrap mid) = true := rfl
  simp only [stripFencesParse, hf1, hf2, Bool.false_eq_true, if_false, if_true]
  have hd : dropNl ((fenceWrap mid).drop 3) = mid ++ ('\n' :: s2l "```") := rfl
  rw [hd]
  have hend : strEnds (s2l "\n```") (mid ++ ('\n' :: s2l "```")) = true := by
    rw [strEnds, List.reverse_append, List.reverse_cons,
      show (s2l "\n```").reverse = (s2l "```").reverse ++ ['\n'] from rfl]
    exact strStarts_append_self _ _
  rw [stripTrailFence, if_pos hend, dropLastN, List.length_append,
    show ('\n' :: s2l "```").length = 4 from rfl, Nat.add_sub_cancel]
  exact List.take_left mid _

/-- C10: fence handling differs between the two entry points — for any
body wrapped in a plain (untagged) triple-backtick fence, `parseMermaid`
strips the fence (so it parses the body, and succeeds with the body's
dialect whenever the body's first non-empty line selects one), while
`validateMermaid` strips only ```` ```mermaid ```` fences, sees the bare
fence as line 1 and reports the blocking
"Missing or invalid diagram type declaration" issue with `isValid`
false. -/
theorem claim10_fence_asymmetry :
    ∀ mid : Str,
      parseMermaid (fenceWrap mid) = parseCore mid ∧
      ((detectDiagramType (nonBlankLines mid)).1 ∈
          [s2l "flowchart", s2l "sequence", s2l "erDiagram", s2l "mindmap"] →
        nonBlankLines mid ≠ [] →
        ∃ r, parseMermaid (fenceWrap mid) = Except.ok r ∧
          r.typeStr = (detectDiagramType (nonBlankLines mid)).1) ∧
      (validateMermaid (fenceWrap mid)).issues.head? = some missingTypeIssue ∧
      (validateMermaid (fenceWrap mid)).isValid = false := by
  intro mid
  have h3 : parseMermaid (fenceWrap mid) = parseCore mid := by
    rw [parseMermaid, fenceWrap_trim, fenceWrap_strip]
  have hv1 : stripFencesValidate (fenceWrap mid) = fenceWrap mid := by
    have hf1 : strStarts (s2l "```mermaid") (fenceWrap mid) = false := rfl
    simp only [stripFencesValidate, hf1, Bool.false_eq_true, if_false]
  have hlines : splitLines (fenceWrap mid) =
      s2l "```" :: splitLines (mid ++ ('\n' :: s2l "```")) := rfl
  have hvm : validateMermaid (fenceWrap mid) =
      validateLines (s2l "```" :: splitLines (mid ++ ('\n' :: s2l "```"))) := by
    rw [validateMermaid, validateLinesOf, fenceWrap_trim, hv1, hlines]
  refine ⟨h3, ?_, ?_, ?_⟩
  · intro hk hne
    obtain ⟨r, hok, hty⟩ := parseCore_ok_type mid hne
    refine ⟨r, by rw [h3, hok], ?_⟩
    rw [hty]
    exact dispatchKind_id_of_mem _ hk
  · rw [hvm]
    rfl
  · rw [hvm]
    rfl

/-- C10 witness: the fenced body `flowchart TD\nA --> B`. -/
theorem claim10_witness :
    ∃ r, parseMermaid (fenceWrap (s2l "flowchart TD\nA --> B")) = Except.ok r ∧
      r.typeStr =
        (detectDiagramType (nonBlankLines (s2l "flowchart TD\nA --> B"))).1 :=
  (claim10_fence_asymmetry (s2l "flowchart TD\nA --> B")).2.1
    (by decide) (by decide)

theorem trimL_eq_nil (s : Str) (h : ∀ c ∈ s, wsChar c = true) :
    trimL s = [] := by
  induction s with
  | nil => rfl
  | cons c t ih =>
    have hc : wsChar c = true := h c (List.mem_cons_self c t)
    simp only [trimL, List.dropWhile_cons, hc, if_true]
    exact ih fun d hd => h d (List.mem_cons_of_mem c hd)

theorem trimStr_eq_nil (s : Str) (h : ∀ c ∈ s, wsChar c = true) :
    trimStr s = [] := by
  have hr : ∀ c ∈ s.reverse, wsChar c = true :=
    fun c hc => h c (List.mem_reverse.mp hc)
  rw [trimStr, trimR, trimL_eq_nil s.reverse hr]
  rfl

/-- C7: on every whitespace-only input (the empty string included),
`parseMermaid` aborts with the fatal `Empty Mermaid diagram` error and
produces no partial result (the embedded function returns
`Except.error`, never `Except.ok`), while `validateMermaid` — a total
function in this model, mirroring that the JS validator throws no
exception — returns a result whose `nodeCount` and `edgeCount` are 0. -/
theorem claim7_empty_input :
    ∀ input : Str, (∀ c ∈ input, wsChar c = true) →
      parseMermaid input = Except.error (s2l "Empty Mermaid diagram") ∧
      (validateMermaid input).nodeCount = 0 ∧
      (validateMermaid input).edgeCount = 0 := by
  intro input hws
  refine ⟨?_, rfl, rfl⟩
  rw [parseMermaid, trimStr_eq_nil input hws]
  rfl

/-- C7 witness: the whitespace-only input `" \n\t "`. -/
theorem claim7_witness :
    parseMermaid (s2l " \n\t ") = Except.error (s2l "Empty Mermaid diagram") ∧
    (validateMermaid (s2l " \n\t ")).nodeCount = 0 ∧
    (validateMermaid (s2l " \n\t ")).edgeCount = 0 :=
  claim7_empty_input (s2l " \n\t ") (by decide)

theorem mem_foldl_cons (f : Node → Edge) :
    ∀ (l : List Node) (acc : List Edge) (e : Edge), e ∈ acc →
      e ∈ l.foldl (fun a y => f y :: a) acc := by
  intro l
  induction l with
  | nil => intro acc e he; exact he
  | cons c t ih =>
    intro acc e he
    exact ih (f c :: acc) e (List.mem_cons_of_mem _ he)

theorem mem_foldl_cons_of_mem (f : Node → Edge) :
    ∀ (l : List Node) (acc : List Edge) (x : Node), x ∈ l →
      f x ∈ l.foldl (fun a y => f y :: a) acc := by
  intro l
  induction l with
  | nil => intro acc x hx; exact absurd hx (List.not_mem_nil x)
  | cons c t ih =>
    intro acc x hx
    rcases List.mem_cons.mp hx with h | h
    · subst h
      exact mem_foldl_cons f t (f x :: acc) (f x) (List.mem_cons_self _ _)
    · exact ih (f c :: acc) x h

theorem hasStartNode_eq_false (nodes : List Node)
    (hterm : ∀ n ∈ nodes, carriesTerminalName n = false) :
    hasStartNode nodes = false := by
  rw [hasStartNode, List.any_eq_false]
  intro n hn
  have hc := hterm n hn
  simp only [carriesTerminalName, Bool.or_eq_false_iff,
    decide_eq_false_iff_not] at hc
  obtain ⟨⟨⟨⟨⟨h1, h2⟩, h3⟩, h4⟩, h5⟩, h6⟩ := hc
  simp only [Bool.not_eq_true, Bool.or_eq_false_iff,
    decide_eq_false_iff_not]
  refine ⟨?_, h4⟩
  intro hid
  exact h1 (by rw [hid]; rfl)

theorem hasStopNode_eq_false (nodes : List Node)
    (hterm : ∀ n ∈ nodes, carriesTerminalName n = false) :
    hasStopNode nodes = false := by
  rw [hasStopNode, List.any_eq_false]
  intro n hn
  have hc := hterm n hn
  simp only [carriesTerminalName, Bool.or_eq_false_iff,
    decide_eq_false_iff_not] at hc
  obtain ⟨⟨⟨⟨⟨h1, h2⟩, h3⟩, h4⟩, h5⟩, h6⟩ := hc
  simp only [Bool.not_eq_true, Bool.or_eq_false_iff,
    decide_eq_false_iff_not]
  refine ⟨⟨⟨?_, ?_⟩, h5⟩, h6⟩
  · intro hid
    exact h2 (by rw [hid]; rfl)
  · intro hid
    exact h3 (by rw [hid]; rfl)

/-- C1 counterexample: for `flowchart TD\nX[Go] --> Y[Stop2]` the claim
asserts that no `Stop` node is synthesized; but `Stop2` is not an exact
`stop`/`end` match, so `hasStopNode` is false, `Y` has zero outgoing
edges, and `convertToDrawio`'s preprocessing DOES add a `Stop` node
(and wires `Y` to it). -/
theorem claim1_counterexample :
    (drawioPrepare
      (flowPayload (parseMermaid (s2l "flowchart TD\nX[Go] --> Y[Stop2]"))).1
      (flowPayload (parseMermaid (s2l "flowchart TD\nX[Go] --> Y[Stop2]"))).2).1.any
      (fun n => n.id = s2l "Stop") = true := by rfl

/-- C1 (amended): if no node carries the literal id or label
`Start`/`Stop`/`End` case-insensitively, then whenever at least one
zero-indegree node exists a synthetic `Start` stadium node is added and
wired to every zero-indegree node, and whenever at least one
zero-outdegree node exists a synthetic `Stop` node is added and wired
from every zero-outdegree node; in particular, for
`flowchart TD\nX[Go] --> Y[Stop2]` synthesis fires on BOTH sides (a
`Start` stadium node wired to `X` and a `Stop` node wired from `Y`). -/
theorem claim1_synthesis :
    (∀ (nodes : List Node) (edges : List Edge),
      (∀ n ∈ nodes, carriesTerminalName n = false) →
      ((nodes.filter (fun n => indegOf edges n.id = 0) ≠ []) →
        synthStartNode ∈ (drawioPrepare nodes edges).1 ∧
        ∀ n ∈ nodes, indegOf edges n.id = 0 →
          startEdgeFor n ∈ (drawioPrepare nodes edges).2) ∧
      ((nodes.filter (fun n => outdegOf edges n.id = 0) ≠ []) →
        synthStopNode ∈ (drawioPrepare nodes edges).1 ∧
        ∀ n ∈ nodes, outdegOf edges n.id = 0 →
          stopEdgeFor n ∈ (drawioPrepare nodes edges).2)) ∧
    (drawioPrepare
      (flowPayload (parseMermaid (s2l "flowchart TD\nX[Go] --> Y[Stop2]"))).1
      (flowPayload (parseMermaid (s2l "flowchart TD\nX[Go] --> Y[Stop2]"))).2).1.any
      (fun n => n.id = s2l "Start" && n.shape = s2l "stadium") = true ∧
    (drawioPrepare
      (flowPayload (parseMermaid (s2l "flowchart TD\nX[Go] --> Y[Stop2]"))).1
      (flowPayload (parseMermaid (s2l "flowchart TD\nX[Go] --> Y[Stop2]"))).2).2.any
      (fun e => e.source = s2l "Start" && e.target = s2l "X") = true ∧
    (drawioPrepare
      (flowPayload (parseMermaid (s2l "flowchart TD\nX[Go] --> Y[Stop2]"))).1
      (flowPayload (parseMermaid (s2l "flowchart TD\nX[Go] --> Y[Stop2]"))).2).1.any
      (fun n => n.id = s2l "Stop") = true ∧
    (drawioPrepare
      (flowPayload (parseMermaid (s2l "flowchart TD\nX[Go] --> Y[Stop2]"))).1
      (flowPayload (parseMermaid (s2l "flowchart TD\nX[Go] --> Y[Stop2]"))).2).2.any
      (fun e => e.source = s2l "Y" && e.target = s2l "Stop") = true := by
  refine ⟨?_, rfl, rfl, rfl, rfl⟩
  intro nodes edges hterm
  have hstart := hasStartNode_eq_false nodes hterm
  have hstop := hasStopNode_eq_false nodes hterm
  constructor
  · intro hne
    have hie : (nodes.filter (fun n => indegOf edges n.id = 0)).isEmpty = false := by
      cases hh : nodes.filter (fun n => indegOf edges n.id = 0) with
      | nil => exact absurd hh hne
      | cons a t => rfl
    have haddS : (!hasStartNode nodes &&
        !(nodes.filter (fun n => indegOf edges n.id = 0)).isEmpty) = true := by
      rw [hstart, hie]; rfl
    constructor
    · simp only [drawioPrepare, haddS, if_true]
      by_cases hstp : (!hasStopNode nodes &&
          !(nodes.filter (fun n => outdegOf edges n.id = 0)).isEmpty) = true
      · simp only [hstp, if_true]
        exact List.mem_append_left _ (List.mem_cons_self _ _)
      · simp only [eq_false_of_ne_true hstp, Bool.false_eq_true, if_false]
        exact List.mem_cons_self _ _
    · intro n hn hdeg
      have hmem : n ∈ nodes.filter (fun n => indegOf edges n.id = 0) := by
        rw [List.mem_filter]
        exact ⟨hn, by simp [hdeg]⟩
      simp only [drawioPrepare, haddS, if_true]
      by_cases hstp : (!hasStopNode nodes &&
          !(nodes.filter (fun n => outdegOf edges n.id = 0)).isEmpty) = true
      · simp only [hstp, if_true]
        exact List.mem_append_left _
          (mem_foldl_cons_of_mem startEdgeFor _ edges n hmem)
      · simp only [eq_false_of_ne_true hstp, Bool.false_eq_true, if_false]
        exact mem_foldl_cons_of_mem startEdgeFor _ edges n hmem
  · intro hne
    have hoe : (nodes.filter (fun n => outdegOf edges n.id = 0)).isEmpty = false := by
      cases hh : nodes.filter (fun n => outdegOf edges n.id = 0) with
      | nil => exact absurd hh hne
      | cons a t => rfl
    have haddT : (!hasStopNode nodes &&
        !(nodes.filter (fun n => outdegOf edges n.id = 0)).isEmpty) = true := by
      rw [hstop, hoe]; rfl
    constructor
    · simp only [drawioPrepare, haddT, if_true]
      exact List.mem_append_right _ (List.mem_cons_self _ _)
    · intro n hn hdeg
      have hmem : n ∈ nodes.filter (fun n => outdegOf edges n.id = 0) := by
        rw [List.mem_filter]
        exact ⟨hn, by simp [hdeg]⟩
      simp only [drawioPrepare, haddT, if_true]
      exact List.mem_append_right _ (List.mem_map_of_mem stopEdgeFor hmem)

/-- C1 witness: the synthesis applied to the single node `A` with no
edges (both synthesis sides fire). -/
theorem claim1_witness :
    synthStartNode ∈ (drawioPrepare [defaultNode (s2l "A")] []).1 ∧
    startEdgeFor (defaultNode (s2l "A")) ∈
      (drawioPrepare [defaultNode (s2l "A")] []).2 ∧
    synthStopNode ∈ (drawioPrepare [defaultNode (s2l "A")] []).1 ∧
    stopEdgeFor (defaultNode (s2l "A")) ∈
      (drawioPrepare [defaultNode (s2l "A")] []).2 := by
  have h := claim1_synthesis.1 [defaultNode (s2l "A")] [] (by decide)
  refine ⟨(h.1 (by decide)).1, (h.1 (by decide)).2 _ (by decide) (by decide),
    (h.2 (by decide)).1, (h.2 (by decide)).2 _ (by decide) (by decide)⟩

theorem parseConnection_sourceNode_id {l : Str} {conn : Connection}
    (h : parseConnection l = some conn) :
    ∀ n, conn.sourceNode = some n → n.id = conn.source := by
  intro n hn
  simp only [parseConnection] at h
  split at h
  · exact Option.noConfusion h
  · split at h
    · exact Option.noConfusion h
    · split at h <;>
        (injection h with h; subst h;
         simp only [Option.map_eq_some'] at hn;
         obtain ⟨sh, hsh, hfn⟩ := hn;
         rw [← hfn];
         rfl)

theorem parseConnection_targetNode_id {l : Str} {conn : Connection}
    (h : parseConnection l = some conn) :
    ∀ n, conn.targetNode = some n → n.id = conn.target := by
  intro n hn
  simp only [parseConnection] at h
  split at h
  · exact Option.noConfusion h
  · split at h
    · exact Option.noConfusion h
    · split at h
      · injection h with h
        subst h
        simp only [Option.some.injEq] at hn
        rw [← hn]
        rfl
      · injection h with h
        subst h
        exact Option.noConfusion hn

theorem mem_mapSet_elim {α : Type} {m : List (Str × α)} {k : Str} {v : α}
    {p : Str × α} (h : p ∈ mapSet m k v) : p = (k, v) ∨ p ∈ m := by
  induction m with
  | nil =>
    simp only [mapSet] at h
    exact Or.inl (List.mem_singleton.mp h)
  | cons q t ih =>
    obtain ⟨k', v'⟩ := q
    by_cases hk : k' = k
    · subst hk
      simp only [mapSet, if_pos rfl] at h
      rcases List.mem_cons.mp h with h | h
      · exact Or.inl h
      · exact Or.inr (List.mem_cons_of_mem _ h)
    · simp only [mapSet, if_neg hk] at h
      rcases List.mem_cons.mp h with h | h
      · exact Or.inr (by rw [h]; exact List.mem_cons_self _ _)
      · rcases ih h with h | h
        · exact Or.inl h
        · exact Or.inr (List.mem_cons_of_mem _ h)

theorem upsertNode_pairs {m : List (Str × Node)} {key : Str}
    {inline : Option Node}
    (hpair : ∀ p ∈ m, (Prod.snd p).id = p.1)
    (hinl : ∀ n, inline = some n → n.id = key) :
    ∀ p ∈ upsertNode m key inline, (Prod.snd p).id = p.1 := by
  intro p hp
  cases hin : inline with
  | some n =>
    rw [hin] at hp
    simp only [upsertNode] at hp
    rcases mem_mapSet_elim hp with h | h
    · rw [h]
      exact hinl n hin
    · exact hpair p h
  | none =>
    rw [hin] at hp
    simp only [upsertNode] at hp
    by_cases hh : mapHas m key = true
    · rw [if_pos hh] at hp
      exact hpair p hp
    · rw [if_neg hh] at hp
      rcases mem_mapSet_elim hp with h | h
      · rw [h]
        rfl
      · exact hpair p h

theorem connStep_inv (st : FlowState) (conn : Connection)
    (hpair : ∀ p ∈ st.nodes, (Prod.snd p).id = p.1)
    (hsrc : ∀ n, conn.sourceNode = some n → n.id = conn.source)
    (htgt : ∀ n, conn.targetNode = some n → n.id = conn.target)
    (hedge : ∀ e ∈ st.edges,
      mapHas st.nodes e.source = true ∧ mapHas st.nodes e.target = true) :
    (∀ p ∈ (connStep st conn).nodes, (Prod.snd p).id = p.1) ∧
    (∀ e ∈ (connStep st conn).edges,
      mapHas (connStep st conn).nodes e.source = true ∧
      mapHas (connStep st conn).nodes e.target = true) := by
  constructor
  · exact upsertNode_pairs (upsertNode_pairs hpair hsrc) htgt
  · intro e he
    simp only [connStep] at he ⊢
    rcases List.mem_append.mp he with h | h
    · obtain ⟨h1, h2⟩ := hedge e h
      exact ⟨upsertNode_mono _ _ _ _ (upsertNode_mono _ _ _ _ h1),
        upsertNode_mono _ _ _ _ (upsertNode_mono _ _ _ _ h2)⟩
    · rw [List.mem_singleton.mp h]
      exact ⟨upsertNode_mono _ _ _ _ (upsertNode_has_self _ _ _),
        upsertNode_has_self _ _ _⟩

theorem flowStep_inv (st : FlowState) (l : Str)
    (hpair : ∀ p ∈ st.nodes, (Prod.snd p).id = p.1)
    (hedge : ∀ e ∈ st.edges,
      mapHas st.nodes e.source = true ∧ mapHas st.nodes e.target = true) :
    (∀ p ∈ (flowStep st l).nodes, (Prod.snd p).id = p.1) ∧
    (∀ e ∈ (flowStep st l).edges,
      mapHas (flowStep st l).nodes e.source = true ∧
      mapHas (flowStep st l).nodes e.target = true) := by
  simp only [flowStep]
  split
  · exact ⟨hpair, hedge⟩
  · split
    · split
      · exact ⟨hpair, hedge⟩
      · exact ⟨hpair, hedge⟩
    · split
      · split
        · exact ⟨hpair, hedge⟩
        · exact ⟨hpair, hedge⟩
      · split
        · rename_i conn hc
          exact connStep_inv st conn hpair
            (parseConnection_sourceNode_id hc)
            (parseConnection_targetNode_id hc) hedge
        · split
          · rename_i g grp hm
            split
            · rename_i sg hsg
              constructor
              · intro p hp
                rcases mem_mapSet_elim hp with h | h
                · rw [h]
                  rfl
                · exact hpair p h
              · intro e he
                obtain ⟨h1, h2⟩ := hedge e he
                exact ⟨mapHas_mapSet _ _ _ _ h1, mapHas_mapSet _ _ _ _ h2⟩
            · constructor
              · intro p hp
                rcases mem_mapSet_elim hp with h | h
                · rw [h]
                  rfl
                · exact hpair p h
              · intro e he
                obtain ⟨h1, h2⟩ := hedge e he
                exact ⟨mapHas_mapSet _ _ _ _ h1, mapHas_mapSet _ _ _ _ h2⟩
          · exact ⟨hpair, hedge⟩

theorem flow_foldl_inv :
    ∀ (ls : List Str) (st : FlowState),
      (∀ p ∈ st.nodes, (Prod.snd p).id = p.1) →
      (∀ e ∈ st.edges,
        mapHas st.nodes e.source = true ∧ mapHas st.nodes e.target = true) →
      (∀ p ∈ (ls.foldl flowStep st).nodes, (Prod.snd p).id = p.1) ∧
      (∀ e ∈ (ls.foldl flowStep st).edges,
        mapHas (ls.foldl flowStep st).nodes e.source = true ∧
        mapHas (ls.foldl flowStep st).nodes e.target = true) := by
  intro ls
  induction ls with
  | nil => intro st h1 h2; exact ⟨h1, h2⟩
  | cons l t ih =>
    intro st h1 h2
    obtain ⟨g1, g2⟩ := flowStep_inv st l h1 h2
    exact ih (flowStep st l) g1 g2

theorem mapHas_mem_ids {m : List (Str × Node)} {k : Str}
    (hpair : ∀ p ∈ m, (Prod.snd p).id = p.1) (h : mapHas m k = true) :
    k ∈ (mapValues m).map Node.id := by
  simp only [mapHas, Option.isSome_iff_exists] at h
  obtain ⟨v, hv⟩ := h
  have hm := mapGet_mem hv
  have hid : v.id = k := hpair (k, v) hm
  rw [List.mem_map]
  exact ⟨v, mem_mapValues hm, hid⟩

theorem mapHas_mem_ids_gen {α : Type} (f : α → Str) {m : List (Str × α)}
    {k : Str} (hpair : ∀ p ∈ m, f (Prod.snd p) = p.1) (h : mapHas m k = true) :
    k ∈ (mapValues m).map f := by
  simp only [mapHas, Option.isSome_iff_exists] at h
  obtain ⟨v, hv⟩ := h
  have hm := mapGet_mem hv
  rw [List.mem_map]
  exact ⟨v, mem_mapValues hm, hpair (k, v) hm⟩

theorem ensureEntity_pairs {m : List (Str × Entity)} {name : Str}
    (hpair : ∀ p ∈ m, (Prod.snd p).id = p.1) :
    ∀ p ∈ ensureEntity m name, (Prod.snd p).id = p.1 := by
  intro p hp
  simp only [ensureEntity] at hp
  by_cases hh : mapHas m name = true
  · rw [if_pos hh] at hp
    exact hpair p hp
  · rw [if_neg hh] at hp
    rcases mem_mapSet_elim hp with h | h
    · rw [h]
    · exact hpair p h

theorem ensureEntity_mono {m : List (Str × Entity)} {name k : Str}
    (h : mapHas m k = true) : mapHas (ensureEntity m name) k = true := by
  simp only [ensureEntity]
  by_cases hh : mapHas m name = true
  · rw [if_pos hh]
    exact h
  · rw [if_neg hh]
    exact mapHas_mapSet _ _ _ _ h

theorem ensureEntity_has_self (m : List (Str × Entity)) (name : Str) :
    mapHas (ensureEntity m name) name = true := by
  simp only [ensureEntity]
  by_cases hh : mapHas m name = true
  · rw [if_pos hh]
    exact hh
  · rw [if_neg hh]
    exact mapHas_mapSet_self _ _ _

theorem pushAttr_pairs {m : List (Str × Entity)} {name : Str} {a : ERAttribute}
    (hpair : ∀ p ∈ m, (Prod.snd p).id = p.1) :
    ∀ p ∈ pushAttr m name a, (Prod.snd p).id = p.1 := by
  intro p hp
  simp only [pushAttr] at hp
  split at hp
  · rename_i e hg
    rcases mem_mapSet_elim hp with h | h
    · rw [h]
      exact hpair (name, e) (mapGet_mem hg)
    · exact hpair p h
  · exact hpair p hp

theorem pushAttr_mono {m : List (Str × Entity)} {name k : Str}
    {a : ERAttribute} (h : mapHas m k = true) :
    mapHas (pushAttr m name a) k = true := by
  simp only [pushAttr]
  split
  · exact mapHas_mapSet _ _ _ _ h
  · exact h

theorem erStep_inv (st : ERState) (l : Str)
    (hpair : ∀ p ∈ st.entities, (Prod.snd p).id = p.1)
    (hrel : ∀ r ∈ st.relationships,
      mapHas st.entities r.source = true ∧ mapHas st.entities r.target = true) :
    (∀ p ∈ (erStep st l).entities, (Prod.snd p).id = p.1) ∧
    (∀ r ∈ (erStep st l).relationships,
      mapHas (erStep st l).entities r.source = true ∧
      mapHas (erStep st l).entities r.target = true) := by
  simp only [erStep]
  split
  · exact ⟨hpair, hrel⟩
  · split
    · exact ⟨hpair, hrel⟩
    · split
      · refine ⟨ensureEntity_pairs hpair, ?_⟩
        intro r hr
        obtain ⟨h1, h2⟩ := hrel r hr
        exact ⟨ensureEntity_mono h1, ensureEntity_mono h2⟩
      · split
        · rename_i st' hst'
          split at hst'
          · rename_i k hk
            split at hst'
            · split at hst'
              · rename_i tn hattr
                injection hst' with hst'
                subst hst'
                refine ⟨pushAttr_pairs hpair, ?_⟩
                intro r hr
                obtain ⟨h1, h2⟩ := hrel r hr
                exact ⟨pushAttr_mono h1, pushAttr_mono h2⟩
              · exact Option.noConfusion hst'
            · exact Option.noConfusion hst'
          · exact Option.noConfusion hst'
        · split
          · rename_i q hq
            constructor
            · exact ensureEntity_pairs (ensureEntity_pairs hpair)
            · intro r hr
              rcases List.mem_append.mp hr with h | h
              · obtain ⟨h1, h2⟩ := hrel r h
                exact ⟨ensureEntity_mono (ensureEntity_mono h1),
                  ensureEntity_mono (ensureEntity_mono h2)⟩
              · rw [List.mem_singleton.mp h]
                exact ⟨ensureEntity_mono (ensureEntity_has_self _ _),
                  ensureEntity_has_self _ _⟩
          · split
            · refine ⟨pushAttr_pairs (ensureEntity_pairs hpair), ?_⟩
              intro r hr
              obtain ⟨h1, h2⟩ := hrel r hr
              exact ⟨pushAttr_mono (ensureEntity_mono h1),
                pushAttr_mono (ensureEntity_mono h2)⟩
            · exact ⟨hpair, hrel⟩

theorem er_foldl_inv :
    ∀ (ls : List Str) (st : ERState),
      (∀ p ∈ st.entities, (Prod.snd p).id = p.1) →
      (∀ r ∈ st.relationships,
        mapHas st.entities r.source = true ∧
        mapHas st.entities r.target = true) →
      (∀ p ∈ (ls.foldl erStep st).entities, (Prod.snd p).id = p.1) ∧
      (∀ r ∈ (ls.foldl erStep st).relationships,
        mapHas (ls.foldl erStep st).entities r.source = true ∧
        mapHas (ls.foldl erStep st).entities r.target = true) := by
  intro ls
  induction ls with
  | nil => intro st h1 h2; exact ⟨h1, h2⟩
  | cons l t ih =>
    intro st h1 h2
    obtain ⟨g1, g2⟩ := erStep_inv st l h1 h2
    exact ih (erStep st l) g1 g2

theorem mem_nstackSet_elim {s : List (Nat × Str)} {k : Nat} {v : Str}
    {p : Nat × Str} (h : p ∈ nstackSet s k v) : p = (k, v) ∨ p ∈ s := by
  induction s with
  | nil =>
    simp only [nstackSet] at h
    exact Or.inl (List.mem_singleton.mp h)
  | cons q t ih =>
    obtain ⟨k', v'⟩ := q
    by_cases hk : k' = k
    · subst hk
      simp only [nstackSet, if_pos rfl] at h
      rcases List.mem_cons.mp h with h | h
      · exact Or.inl h
      · exact Or.inr (List.mem_cons_of_mem _ h)
    · simp only [nstackSet, if_neg hk] at h
      rcases List.mem_cons.mp h with h | h
      · exact Or.inr (by rw [h]; exact List.mem_cons_self _ _)
      · rcases ih h with h | h
        · exact Or.inl h
        · exact Or.inr (List.mem_cons_of_mem _ h)

theorem nstackGet_mem {s : List (Nat × Str)} {k : Nat} {v : Str}
    (h : nstackGet s k = some v) : (k, v) ∈ s := by
  induction s with
  | nil => simp [nstackGet] at h
  | cons q t ih =>
    obtain ⟨k', v'⟩ := q
    simp only [nstackGet] at h
    by_cases hk : k' = k
    · subst hk
      rw [if_pos rfl] at h
      injection h with h
      rw [← h]
      exact List.mem_cons_self _ _
    · rw [if_neg hk] at h
      exact List.mem_cons_of_mem _ (ih h)

theorem mind_extend_inv (nodes : List MindNode) (edges : List Edge)
    (stack : List (Nat × Str)) (node : MindNode) (lvl : Nat) (eid : Str)
    (hstk : ∀ p ∈ stack, (Prod.snd p) ∈ nodes.map MindNode.id)
    (hedg : ∀ e ∈ edges, e.source ∈ nodes.map MindNode.id ∧
      e.target ∈ nodes.map MindNode.id) :
    (∀ p ∈ nstackSet stack lvl node.id,
      (Prod.snd p) ∈ (nodes ++ [node]).map MindNode.id) ∧
    (∀ e ∈ (if lvl > 0 then
        match nstackGet (nstackSet stack lvl node.id) (lvl - 1) with
        | some parent => edges ++
            [{ id := eid, source := parent, target := node.id, label := [],
               arrowType := none }]
        | none => edges
      else edges),
      e.source ∈ (nodes ++ [node]).map MindNode.id ∧
      e.target ∈ (nodes ++ [node]).map MindNode.id) := by
  have hsub : ∀ x, x ∈ nodes.map MindNode.id →
      x ∈ (nodes ++ [node]).map MindNode.id := by
    intro x hx
    rw [List.map_append]
    exact List.mem_append_left _ hx
  have hself : node.id ∈ (nodes ++ [node]).map MindNode.id := by
    rw [List.map_append]
    refine List.mem_append_right _ ?_
    simp
  have hstk' : ∀ p ∈ nstackSet stack lvl node.id,
      (Prod.snd p) ∈ (nodes ++ [node]).map MindNode.id := by
    intro p hp
    rcases mem_nstackSet_elim hp with h | h
    · rw [h]
      exact hself
    · exact hsub _ (hstk p h)
  refine ⟨hstk', ?_⟩
  intro e he
  split at he
  · split at he
    · rename_i parent hpar
      rcases List.mem_append.mp he with h | h
      · obtain ⟨h1, h2⟩ := hedg e h
        exact ⟨hsub _ h1, hsub _ h2⟩
      · rw [List.mem_singleton.mp h]
        exact ⟨hstk' _ (nstackGet_mem hpar), hself⟩
    · obtain ⟨h1, h2⟩ := hedg e he
      exact ⟨hsub _ h1, hsub _ h2⟩
  · obtain ⟨h1, h2⟩ := hedg e he
    exact ⟨hsub _ h1, hsub _ h2⟩

theorem mindStep_inv (st : MindState) (l : Str)
    (hstk : ∀ p ∈ st.stack, (Prod.snd p) ∈ st.nodes.map MindNode.id)
    (hedg : ∀ e ∈ st.edges, e.source ∈ st.nodes.map MindNode.id ∧
      e.target ∈ st.nodes.map MindNode.id) :
    (∀ p ∈ (mindStep st l).stack,
      (Prod.snd p) ∈ (mindStep st l).nodes.map MindNode.id) ∧
    (∀ e ∈ (mindStep st l).edges,
      e.source ∈ (mindStep st l).nodes.map MindNode.id ∧
      e.target ∈ (mindStep st l).nodes.map MindNode.id) := by
  simp only [mindStep]
  split
  · exact ⟨hstk, hedg⟩
  · exact mind_extend_inv st.nodes st.edges st.stack (mindNodeFor l st.counter)
      (mindLevel l) ('e' :: natToStr (st.edges.length + 1)) hstk hedg

theorem mind_foldl_inv :
    ∀ (ls : List Str) (st : MindState),
      (∀ p ∈ st.stack, (Prod.snd p) ∈ st.nodes.map MindNode.id) →
      (∀ e ∈ st.edges, e.source ∈ st.nodes.map MindNode.id ∧
        e.target ∈ st.nodes.map MindNode.id) →
      (∀ e ∈ (ls.foldl mindStep st).edges,
        e.source ∈ (ls.foldl mindStep st).nodes.map MindNode.id ∧
        e.target ∈ (ls.foldl mindStep st).nodes.map MindNode.id) := by
  intro ls
  induction ls with
  | nil => intro st h1 h2; exact h2
  | cons l t ih =>
    intro st h1 h2
    obtain ⟨g1, g2⟩ := mindStep_inv st l h1 h2
    exact ih (mindStep st l) g1 g2

/-- C2 counterexample: `parseMermaid` accepts the sequence diagram
`sequenceDiagram\nA->>B: hi`, whose single message line names two
participants that were never declared — the result has an edge
`A -> B` but an empty node list, so the edge's source does not occur
among the returned node ids, contradicting the claimed invariant for
the sequence dialect. -/
theorem claim2_counterexample :
    parsedEdgeEnds (parseMermaid (s2l "sequenceDiagram\nA->>B: hi")) =
      [(s2l "A", s2l "B")] ∧
    parsedNodeIds (parseMermaid (s2l "sequenceDiagram\nA->>B: hi")) = [] ∧
    ¬(s2l "A" ∈ parsedNodeIds (parseMermaid (s2l "sequenceDiagram\nA->>B: hi"))) := by
  refine ⟨rfl, rfl, ?_⟩
  intro h
  rw [show parsedNodeIds (parseMermaid (s2l "sequenceDiagram\nA->>B: hi")) = []
    from rfl] at h
  exact List.not_mem_nil _ h

/-- C2 (amended): every edge's source and target id occurs among the
returned node ids for the flowchart, ER and mindmap scanners (these
auto-create a default node/entity for any referenced id with no
explicit declaration) — but NOT for sequence diagrams: a message line
naming participants that were never declared yields an edge whose
endpoints are absent from the returned node list. -/
theorem claim2_edge_endpoints :
    (∀ (lines : List Str) (dir : Str),
      ∀ p ∈ (parseFlowchart lines dir).edgeEndpoints,
        p.1 ∈ (parseFlowchart lines dir).nodeIds ∧
        p.2 ∈ (parseFlowchart lines dir).nodeIds) ∧
    (∀ lines : List Str,
      ∀ p ∈ (parseERDiagram lines).edgeEndpoints,
        p.1 ∈ (parseERDiagram lines).nodeIds ∧
        p.2 ∈ (parseERDiagram lines).nodeIds) ∧
    (∀ lines : List Str,
      ∀ p ∈ (parseMindmap lines).edgeEndpoints,
        p.1 ∈ (parseMindmap lines).nodeIds ∧
        p.2 ∈ (parseMindmap lines).nodeIds) ∧
    parsedEdgeEnds (parseMermaid (s2l "sequenceDiagram\nA->>B: hi")) =
      [(s2l "A", s2l "B")] ∧
    parsedNodeIds (parseMermaid (s2l "sequenceDiagram\nA->>B: hi")) = [] := by
  refine ⟨?_, ?_, ?_, rfl, rfl⟩
  · intro lines dir p hp
    obtain ⟨g1, g2⟩ := flow_foldl_inv (lines.drop 1)
      { nodes := [], edges := [], subgraphs := [], current := none }
      (by intro q hq; exact absurd hq (List.not_mem_nil q))
      (by intro e he; exact absurd he (List.not_mem_nil e))
    simp only [parseFlowchart, Diagram.edgeEndpoints, Diagram.nodeIds] at hp ⊢
    rw [List.mem_map] at hp
    obtain ⟨e, hme, hpe⟩ := hp
    rw [← hpe]
    exact ⟨mapHas_mem_ids g1 (g2 e hme).1, mapHas_mem_ids g1 (g2 e hme).2⟩
  · intro lines p hp
    obtain ⟨g1, g2⟩ := er_foldl_inv (lines.drop 1)
      { entities := [], relationships := [], current := none, inBlock := false }
      (by intro q hq; exact absurd hq (List.not_mem_nil q))
      (by intro r hr; exact absurd hr (List.not_mem_nil r))
    simp only [parseERDiagram, Diagram.edgeEndpoints, Diagram.nodeIds] at hp ⊢
    rw [List.mem_map] at hp
    obtain ⟨r, hmr, hpr⟩ := hp
    rw [← hpr]
    exact ⟨mapHas_mem_ids_gen Entity.id g1 (g2 r hmr).1,
      mapHas_mem_ids_gen Entity.id g1 (g2 r hmr).2⟩
  · intro lines p hp
    have g2 := mind_foldl_inv (lines.drop 1)
      { nodes := [], edges := [], stack := [], counter := 0 }
      (by intro q hq; exact absurd hq (List.not_mem_nil q))
      (by intro e he; exact absurd he (List.not_mem_nil e))
    simp only [parseMindmap, Diagram.edgeEndpoints, Diagram.nodeIds] at hp ⊢
    rw [List.mem_map] at hp
    obtain ⟨e, hme, hpe⟩ := hp
    rw [← hpe]
    exact ⟨(g2 e hme).1, (g2 e hme).2⟩

/-- C2 witness: the flowchart invariant at the concrete input
`flowchart TD\nA --> B` and its edge `(A, B)`. -/
theorem claim2_witness :
    (s2l "A", s2l "B") ∈
      (parseFlowchart [s2l "flowchart TD", s2l "A --> B"]
        (s2l "TD")).edgeEndpoints ∧
    s2l "A" ∈ (parseFlowchart [s2l "flowchart TD", s2l "A --> B"]
      (s2l "TD")).nodeIds ∧
    s2l "B" ∈ (parseFlowchart [s2l "flowchart TD", s2l "A --> B"]
      (s2l "TD")).nodeIds := by
  have h := claim2_edge_endpoints.1 [s2l "flowchart TD", s2l "A --> B"]
    (s2l "TD") (s2l "A", s2l "B") (by decide)
  exact ⟨by decide, h.1, h.2⟩

/-! ## C3: the invalid-node-id checks are unreachable -/

/-- Everything `takeWhile p` keeps satisfies `p`. -/
theorem takeWhile_all (p : Char → Bool) (l : Str) :
    (l.takeWhile p).all p = true := by
  induction l with
  | nil => rfl
  | cons c t ih =>
    by_cases h : p c = true
    · simp [List.takeWhile, h, ih]
    · simp [List.takeWhile, h]

/-- The node-definition id check can never fire: its captured id is a
`\w+` capture, so the `all wordChar` guard always holds. -/
theorem nodeDefIdCheck_nil (n : Nat) (line : Str) :
    nodeDefIdCheck n line = [] := by
  simp only [nodeDefIdCheck]
  split
  · rw [if_pos (takeWhile_all (fun c => wordChar c) (trimL line))]
  · rfl

/-- The connection-source id check can never fire, for the same
reason. -/
theorem connIdCheck_nil (n : Nat) (line : Str) :
    connIdCheck n line = [] := by
  simp only [connIdCheck]
  split
  · rw [if_pos (takeWhile_all (fun c => wordChar c) (trimL line))]
  · rfl

/-- The only per-line blocking issue is the chained-arrows one, whose
text does not begin with `Invalid node ID`. -/
theorem lineIssues_no_invalid (i : Nat) (raw : Str) (x : VIssue)
    (hx : x ∈ lineIssues i raw) :
    strStarts (s2l "Invalid node ID") x.issue = false := by
  simp only [lineIssues, nodeDefIdCheck_nil, connIdCheck_nil,
    List.append_nil] at hx
  split at hx
  · rw [List.mem_singleton] at hx
    rw [hx]
    rfl
  · exact absurd hx (List.not_mem_nil x)

/-- C3: the spec says an invalid node identifier (matched as the source
of a bracket definition or of a connection) triggers a blocking
`Invalid node ID: ...` issue; in the code, the flagged id is itself the
`\w+` capture of the line regex, so the guard `!/^\w+$/.test(id)` is
unsatisfiable and no such issue is ever emitted — the two per-line id
checks are dead code, and `validateMermaid` never reports an issue
whose text starts with `Invalid node ID`. -/
theorem claim3_invalid_id_dead :
    ∀ (input : Str) (n : Nat) (line : Str),
      nodeDefIdCheck n line = [] ∧ connIdCheck n line = [] ∧
      ((validateMermaid input).issues.all
        (fun x => !(strStarts (s2l "Invalid node ID") x.issue))) = true := by
  intro input n line
  refine ⟨nodeDefIdCheck_nil n line, connIdCheck_nil n line, ?_⟩
  rw [List.all_eq_true]
  intro x hx
  simp only [validateMermaid, validateLines] at hx
  rw [List.mem_append] at hx
  rcases hx with h | h
  · split at h
    · exact absurd h (List.not_mem_nil x)
    · rw [List.mem_singleton] at h
      rw [h]
      rfl
  · rw [List.mem_flatten] at h
    obtain ⟨l, hl, hxl⟩ := h
    rw [List.mem_map] at hl
    obtain ⟨p, _, hpl⟩ := hl
    rw [← hpl] at hxl
    have hne := lineIssues_no_invalid p.1 p.2 x hxl
    rw [Bool.not_eq_true', hne]

/-! ## C9: chained arrows and clean-input validation -/

/-- A non-whitespace pattern matches at the head of `a ++ w` (with `w`
all-whitespace) iff it matches at the head of `a`. -/
theorem strStarts_append_ws (p a w : Str)
    (hw : w.all (fun c => wsChar c) = true) :
    p.all (fun c => !wsChar c) = true →
    strStarts p (a ++ w) = strStarts p a := by
  induction p generalizing a with
  | nil => intro _; rfl
  | cons x ps ih =>
    intro hp
    rw [List.all_cons, Bool.and_eq_true] at hp
    obtain ⟨hx0, hp2⟩ := hp
    have hx : wsChar x = false := by simpa using hx0
    cases a with
    | nil =>
      cases w with
      | nil => rfl
      | cons c t =>
        have hc : wsChar c = true := by
          have := List.all_eq_true.mp hw c (List.mem_cons_self c t)
          simpa using this
        have hxc : ¬x = c := by
          intro he
          rw [he] at hx
          rw [hx] at hc
          exact Bool.false_ne_true hc
        simp [strStarts, hxc]
    | cons y a2 =>
      simp only [List.cons_append, strStarts, List.append_eq, ih a2 hp2]

/-- The leftmost-count scanner returns 0 on an all-whitespace string
when the pattern starts with a non-whitespace character. -/
theorem countGo_ws (x : Char) (ps : Str) (hx : wsChar x = false) :
    ∀ (w : Str), w.all (fun c => wsChar c) = true →
    ∀ k, countGo (x :: ps) k w = 0 := by
  intro w
  induction w with
  | nil => intro _ k; cases k <;> rfl
  | cons c t ih =>
    intro hw k
    rw [List.all_cons, Bool.and_eq_true] at hw
    obtain ⟨hc0, ht⟩ := hw
    have hc : wsChar c = true := by simpa using hc0
    cases k with
    | succ k2 =>
      simp only [countGo]
      exact ih ht k2
    | zero =>
      have hxc : ¬x = c := by
        intro he
        rw [he] at hx
        rw [hx] at hc
        exact Bool.false_ne_true hc
      have hst : strStarts (x :: ps) (c :: t) = false := by simp [strStarts, hxc]
      simp only [countGo, hst]
      rw [if_neg Bool.false_ne_true]
      exact ih ht 0

/-- Appending trailing whitespace does not change the non-overlapping
count of a whitespace-free pattern. -/
theorem countGo_append_ws (x : Char) (ps : Str) (hx : wsChar x = false)
    (hp : ((x :: ps).all fun c => !wsChar c) = true)
    (w : Str) (hw : (w.all fun c => wsChar c) = true) :
    ∀ (a : Str) (k : Nat),
      countGo (x :: ps) k (a ++ w) = countGo (x :: ps) k a := by
  intro a
  induction a with
  | nil =>
    intro k
    rw [List.nil_append, countGo_ws x ps hx w hw k]
    cases k <;> rfl
  | cons c a2 ih =>
    intro k
    cases k with
    | succ k2 =>
      simp only [List.cons_append, countGo]
      exact ih k2
    | zero =>
      have hss : strStarts (x :: ps) (c :: (a2 ++ w))
          = strStarts (x :: ps) (c :: a2) := by
        rw [← List.cons_append]
        exact strStarts_append_ws (x :: ps) (c :: a2) w hw hp
      rw [List.cons_append]
      simp only [countGo, hss]
      by_cases hs : strStarts (x :: ps) (c :: a2) = true
      · rw [hs, if_pos rfl, if_pos rfl, ih ((x :: ps).length - 1)]
      · rw [Bool.not_eq_true] at hs
        rw [hs, if_neg Bool.false_ne_true, if_neg Bool.false_ne_true]
        exact ih 0

/-- Prepending leading whitespace does not change the count of a
whitespace-free pattern. -/
theorem countGo_ws_before (x : Char) (ps : Str) (hx : wsChar x = false) :
    ∀ (w : Str), (w.all fun c => wsChar c) = true →
    ∀ (s : Str), countGo (x :: ps) 0 (w ++ s) = countGo (x :: ps) 0 s := by
  intro w
  induction w with
  | nil => intro _ s; rw [List.nil_append]
  | cons c t ih =>
    intro hw s
    rw [List.all_cons, Bool.and_eq_true] at hw
    obtain ⟨hc0, ht⟩ := hw
    have hc : wsChar c = true := by simpa using hc0
    have hxc : ¬x = c := by
      intro he
      rw [he] at hx
      rw [hx] at hc
      exact Bool.false_ne_true hc
    have hst : strStarts (x :: ps) (c :: (t ++ s)) = false := by
      simp [strStarts, hxc]
    rw [List.cons_append]
    simp only [countGo, hst]
    rw [if_neg Bool.false_ne_true]
    exact ih ht s

/-- Every string is its right-trim plus an all-whitespace tail. -/
theorem exists_trimR (s : Str) :
    ∃ w, s = trimR s ++ w ∧ (w.all fun c => wsChar c) = true := by
  refine ⟨(s.reverse.takeWhile fun c => wsChar c).reverse, ?_, ?_⟩
  · rw [trimR, trimL, ← List.reverse_append, List.takeWhile_append_dropWhile,
      List.reverse_reverse]
  · rw [List.all_eq_true]
    intro c hcmem
    rw [List.mem_reverse] at hcmem
    exact List.mem_takeWhile_imp hcmem

/-- Every string is an all-whitespace head plus its left-trim. -/
theorem exists_trimL (s : Str) :
    ∃ w, s = w ++ trimL s ∧ (w.all fun c => wsChar c) = true := by
  refine ⟨s.takeWhile fun c => wsChar c, ?_, ?_⟩
  · rw [trimL, List.takeWhile_append_dropWhile]
  · rw [List.all_eq_true]
    intro c hcmem
    exact List.mem_takeWhile_imp hcmem

/-- Trimming a line does not change the count of a whitespace-free
pattern — so counting on the validator's trimmed line equals counting
on the raw line. -/
theorem countSub_trim (x : Char) (ps : Str) (hx : wsChar x = false)
    (hp : ((x :: ps).all fun c => !wsChar c) = true) (s : Str) :
    countSub (x :: ps) (trimStr s) = countSub (x :: ps) s := by
  obtain ⟨w1, he1, hw1⟩ := exists_trimR s
  obtain ⟨w2, he2, hw2⟩ := exists_trimL (trimR s)
  calc countSub (x :: ps) (trimStr s)
      = countGo (x :: ps) 0 (trimL (trimR s)) := rfl
    _ = countGo (x :: ps) 0 (w2 ++ trimL (trimR s)) :=
        (countGo_ws_before x ps hx w2 hw2 _).symm
    _ = countGo (x :: ps) 0 (trimR s) := by rw [← he2]
    _ = countGo (x :: ps) 0 (trimR s ++ w1) :=
        (countGo_append_ws x ps hx hp w1 hw1 (trimR s) 0).symm
    _ = countSub (x :: ps) s := by rw [← he1]; rfl

/-- If line `i` of the enumerated validator loop has more than one
`-->` after trimming, its chained-arrows issue is in the flattened
per-line issues. -/
theorem chained_mem_enumFrom (lines : List Str) :
    ∀ (k i : Nat) (line : Str),
      lines[i]? = some line →
      1 < countSub (s2l "-->") (trimStr line) →
      chainedIssue (k + i + 1) ∈
        ((List.enumFrom k lines).map fun p => lineIssues p.1 p.2).flatten := by
  induction lines with
  | nil => intro k i line h _; simp at h
  | cons l t ih =>
    intro k i line h hc
    cases i with
    | zero =>
      rw [List.getElem?_cons_zero] at h
      injection h with h
      subst h
      simp only [List.enumFrom, List.map_cons, List.flatten_cons]
      apply List.mem_append_left
      simp only [lineIssues]
      rw [if_pos hc]
      exact List.mem_append_left _ (List.mem_append_left _
        (List.mem_singleton_self _))
    | succ j =>
      rw [List.getElem?_cons_succ] at h
      simp only [List.enumFrom, List.map_cons, List.flatten_cons]
      apply List.mem_append_right
      have hm := ih (k + 1) j line h hc
      have harith : k + 1 + j + 1 = k + (j + 1) + 1 := by omega
      rw [harith] at hm
      exact hm

/-- A list with a member is not empty. -/
theorem isEmpty_false_of_mem {α : Type} {a : α} {l : List α} (h : a ∈ l) :
    l.isEmpty = false := by
  cases l with
  | nil => exact absurd h (List.not_mem_nil a)
  | cons _ _ => rfl

/-- Validator body: a line with more than one `-->` yields the
chained-arrows blocking issue, invalidity, and `low` compatibility. -/
theorem validateLines_chained (lines : List Str) (i : Nat) (line : Str)
    (h : lines[i]? = some line)
    (hc : 1 < countSub (s2l "-->") line) :
    chainedIssue (i + 1) ∈ (validateLines lines).issues ∧
    (validateLines lines).isValid = false ∧
    (validateLines lines).compatibility = s2l "low" := by
  have hc2 : 1 < countSub (s2l "-->") (trimStr line) := by
    have ht := countSub_trim '-' (s2l "->") (by decide) (by decide) line
    have he : ('-' :: s2l "->") = s2l "-->" := by decide
    rw [he] at ht
    rw [ht]
    exact hc
  have hmem0 := chained_mem_enumFrom lines 0 i line h hc2
  have hz : 0 + i + 1 = i + 1 := by omega
  rw [hz] at hmem0
  have hmem : chainedIssue (i + 1) ∈ (validateLines lines).issues := by
    simp only [validateLines]
    apply List.mem_append_right
    have he : lines.enum = List.enumFrom 0 lines := rfl
    rw [he]
    exact hmem0
  have hne : (validateLines lines).issues.isEmpty = false :=
    isEmpty_false_of_mem hmem
  refine ⟨hmem, ?_, ?_⟩
  · have hr : (validateLines lines).isValid
        = (validateLines lines).issues.isEmpty := rfl
    rw [hr]
    exact hne
  · have hr : (validateLines lines).compatibility
        = (if (validateLines lines).issues.isEmpty = true then
            (if (validateLines lines).warnings.isEmpty = true then s2l "high"
             else s2l "medium")
           else s2l "low") := rfl
    rw [hr, hne, if_neg Bool.false_ne_true]

/-- If every line has at most one `-->` after trimming, the flattened
per-line issues are empty. -/
theorem issues_nil_enumFrom (lines : List Str) :
    ∀ k, (∀ l ∈ lines, countSub (s2l "-->") (trimStr l) ≤ 1) →
      ((List.enumFrom k lines).map fun p => lineIssues p.1 p.2).flatten
        = [] := by
  induction lines with
  | nil => intro k _; rfl
  | cons l t ih =>
    intro k h
    simp only [List.enumFrom, List.map_cons, List.flatten_cons]
    have h1 : lineIssues k l = [] := by
      simp only [lineIssues, nodeDefIdCheck_nil, connIdCheck_nil,
        List.append_nil]
      rw [if_neg (Nat.not_lt.mpr (h l (List.mem_cons_self l t)))]
    rw [h1, List.nil_append]
    exact ih (k + 1) (fun x hx => h x (List.mem_cons_of_mem l hx))

/-- If no trimmed line starts with `classDef` or `style `, the
flattened per-line warnings are empty. -/
theorem warnings_nil_enumFrom (lines : List Str) :
    ∀ k, (∀ l ∈ lines,
        (strStarts (s2l "classDef") (trimStr l)
          || strStarts (s2l "style ") (trimStr l)) = false) →
      ((List.enumFrom k lines).map fun p => lineWarnings p.1 p.2).flatten
        = [] := by
  induction lines with
  | nil => intro k _; rfl
  | cons l t ih =>
    intro k h
    simp only [List.enumFrom, List.map_cons, List.flatten_cons]
    have h1 : lineWarnings k l = [] := by
      simp only [lineWarnings]
      rw [h l (List.mem_cons_self l t), if_neg Bool.false_ne_true]
    rw [h1, List.nil_append]
    exact ih (k + 1) (fun x hx => h x (List.mem_cons_of_mem l hx))

/-- Validator body: a `flowchart lr` first line with no chained arrows
and no styling lines validates with `high` compatibility. -/
theorem validateLines_high (lines : List Str)
    (h1 : toLowerStr (trimStr (lines.headD [])) = s2l "flowchart lr")
    (h2 : ∀ l ∈ lines, countSub (s2l "-->") (trimStr l) ≤ 1)
    (h3 : ∀ l ∈ lines,
      (strStarts (s2l "classDef") (trimStr l)
        || strStarts (s2l "style ") (trimStr l)) = false) :
    (validateLines lines).isValid = true ∧
    (validateLines lines).compatibility = s2l "high" := by
  have hiss : (validateLines lines).issues = [] := by
    simp only [validateLines]
    rw [h1, if_pos (by decide), List.nil_append]
    have he : lines.enum = List.enumFrom 0 lines := rfl
    rw [he]
    exact issues_nil_enumFrom lines 0 h2
  have hwarn : (validateLines lines).warnings = [] := by
    simp only [validateLines]
    rw [h1, if_neg (by decide), List.nil_append]
    have he : lines.enum = List.enumFrom 0 lines := rfl
    rw [he]
    exact warnings_nil_enumFrom lines 0 h3
  constructor
  · have hr : (validateLines lines).isValid
        = (validateLines lines).issues.isEmpty := rfl
    rw [hr, hiss]
    rfl
  · have hr : (validateLines lines).compatibility
        = (if (validateLines lines).issues.isEmpty = true then
            (if (validateLines lines).warnings.isEmpty = true then s2l "high"
             else s2l "medium")
           else s2l "low") := rfl
    rw [hr, hiss, hwarn]
    rfl

/-- C9: on any input one of whose scanned lines contains more than one
`-->`, `validateMermaid` reports the chained-arrows blocking issue at
that line, `isValid` is false and compatibility is `low`; and on any
input whose first scanned line lowercases to `flowchart lr`, with no
line holding two `-->` and no trimmed line starting with `classDef` or
`style `, it validates with compatibility `high`. -/
theorem claim9_validation :
    (∀ (input : Str) (i : Nat) (line : Str),
      (validateLinesOf input)[i]? = some line →
      1 < countSub (s2l "-->") line →
      chainedIssue (i + 1) ∈ (validateMermaid input).issues ∧
      (validateMermaid input).isValid = false ∧
      (validateMermaid input).compatibility = s2l "low") ∧
    (∀ input : Str,
      toLowerStr (trimStr ((validateLinesOf input).headD []))
        = s2l "flowchart lr" →
      (∀ l ∈ validateLinesOf input, countSub (s2l "-->") (trimStr l) ≤ 1) →
      (∀ l ∈ validateLinesOf input,
        (strStarts (s2l "classDef") (trimStr l)
          || strStarts (s2l "style ") (trimStr l)) = false) →
      (validateMermaid input).isValid = true ∧
      (validateMermaid input).compatibility = s2l "high") := by
  constructor
  · intro input i line h hc
    exact validateLines_chained (validateLinesOf input) i line h hc
  · intro input h1 h2 h3
    exact validateLines_high (validateLinesOf input) h1 h2 h3

/-- C9 witness: the chained input `flowchart TD\nA --> B --> C` is
rejected as `low`, and the clean input `flowchart LR\nA --> B`
validates as `high`. -/
theorem claim9_witness :
    chainedIssue 2 ∈
      (validateMermaid (s2l "flowchart TD\nA --> B --> C")).issues ∧
    (validateMermaid (s2l "flowchart TD\nA --> B --> C")).isValid = false ∧
    (validateMermaid (s2l "flowchart TD\nA --> B --> C")).compatibility
      = s2l "low" ∧
    (validateMermaid (s2l "flowchart LR\nA --> B")).isValid = true ∧
    (validateMermaid (s2l "flowchart LR\nA --> B")).compatibility
      = s2l "high" := by
  have hA := claim9_validation.1 (s2l "flowchart TD\nA --> B --> C") 1
    (s2l "A --> B --> C") (by decide) (by decide)
  have hB := claim9_validation.2 (s2l "flowchart LR\nA --> B")
    (by decide) (by decide) (by decide)
  exact ⟨hA.1, hA.2.1, hA.2.2, hB.1, hB.2⟩

/-! ## C8: termination and totality of the level assignment -/

/-- Filtering with a weaker predicate keeps at least as many
elements. -/
theorem filter_length_le {α : Type} (p1 p2 : α → Bool)
    (himp : ∀ x, p1 x = true → p2 x = true) :
    ∀ l : List α, (l.filter p1).length ≤ (l.filter p2).length := by
  intro l
  induction l with
  | nil => exact Nat.le_refl 0
  | cons a t ih =>
    rw [List.filter_cons, List.filter_cons]
    by_cases h1 : p1 a = true
    · rw [if_pos h1, if_pos (himp a h1)]
      exact Nat.succ_le_succ ih
    · rw [if_neg h1]
      by_cases h2 : p2 a = true
      · rw [if_pos h2]
        exact Nat.le_succ_of_le ih
      · rw [if_neg h2]
        exact ih

/-- Filtering with a strictly-weaker predicate (witnessed by one
member) keeps strictly more elements. -/
theorem filter_length_lt {α : Type} (p1 p2 : α → Bool)
    (himp : ∀ x, p1 x = true → p2 x = true) :
    ∀ (l : List α) (a : α), a ∈ l → p1 a = false → p2 a = true →
      (l.filter p1).length < (l.filter p2).length := by
  intro l
  induction l with
  | nil => intro a ha _ _; exact absurd ha (List.not_mem_nil a)
  | cons b t ih =>
    intro a ha h1 h2
    rw [List.filter_cons, List.filter_cons]
    rcases List.mem_cons.mp ha with he | hm
    · subst he
      rw [if_neg (by rw [h1]; exact Bool.false_ne_true), if_pos h2]
      exact Nat.lt_succ_of_le (filter_length_le p1 p2 himp t)
    · by_cases hb1 : p1 b = true
      · rw [if_pos hb1, if_pos (himp b hb1)]
        exact Nat.succ_lt_succ (ih a hm h1 h2)
      · rw [if_neg hb1]
        by_cases hb2 : p2 b = true
        · rw [if_pos hb2]
          exact Nat.lt_succ_of_lt (ih a hm h1 h2)
        · rw [if_neg hb2]
          exact ih a hm h1 h2

/-- Pushing a fresh universe member onto the stack strictly shrinks the
free count — the decreasing measure of the DFS. -/
theorem freeCount_lt (uni : List Str) (nid : Str) (inSt : List Str)
    (hn : nid ∈ uni) (hnin : ¬nid ∈ inSt) :
    freeCount uni (nid :: inSt) < freeCount uni inSt := by
  simp only [freeCount]
  exact filter_length_lt _ _
    (fun x hx => by
      rw [decide_eq_true_eq] at hx ⊢
      exact fun hm => hx (List.mem_cons_of_mem nid hm))
    uni.dedup nid (List.mem_dedup.mpr hn)
    (by rw [decide_eq_false_iff_not]
        exact fun hno => hno (List.mem_cons_self nid inSt))
    (decide_eq_true hnin)

/-- The initial free count is below the computed fuel. -/
theorem freeCount_nil_lt (nodes : List Node) (edges : List Edge) :
    freeCount (levelUniverse nodes edges) [] < calcLevelFuel nodes edges := by
  simp only [freeCount, calcLevelFuel]
  exact Nat.lt_succ_of_le (List.length_filter_le _ _)

/-- Popping the just-pushed stack entry restores the stack. -/
theorem removeS_cons_self (x : Str) (l : List Str) (h : ¬x ∈ l) :
    removeS x (x :: l) = l := by
  simp only [removeS, List.filter_cons]
  rw [if_neg (by simp)]
  rw [List.filter_eq_self]
  intro a ha
  rw [decide_eq_true_eq]
  intro he
  rw [he] at ha
  exact h ha

/-- The children loop of `assignLevels`: when every recursive call
succeeds and preserves the stack, the whole fold succeeds and preserves
the stack. -/
theorem kidsFold (outE : List (Str × List Str)) (f : Nat) (level : Nat)
    (uni : List Str) (base : List Str)
    (hrec : ∀ (c : Str) (s : LvSt), c ∈ uni → s.inStack = base →
      ∃ s2, assignLevels outE f c (level + 1) s = some s2 ∧
        s2.inStack = base) :
    ∀ (cs : List Str), (∀ c ∈ cs, c ∈ uni) →
    ∀ (s : LvSt), s.inStack = base →
      ∃ s2, cs.foldl
          (fun acc c => acc.bind (fun s4 => assignLevels outE f c (level + 1) s4))
          (some s) = some s2 ∧ s2.inStack = base := by
  intro cs
  induction cs with
  | nil => intro _ s hs; exact ⟨s, rfl, hs⟩
  | cons c cs2 ih =>
    intro hmem s hs
    obtain ⟨s1, h1, hs1⟩ := hrec c s (hmem c (List.mem_cons_self c cs2)) hs
    simp only [List.foldl_cons]
    have hred : ((some s).bind
        fun s4 => assignLevels outE f c (level + 1) s4) = some s1 := h1
    rw [hred]
    exact ih (fun x hx => hmem x (List.mem_cons_of_mem c hx)) s1 hs1

/-- The DFS succeeds on any in-universe node given fuel above the free
count, and restores the stack it was called with — the JS recursion
terminates even on cyclic edge relations. -/
theorem assignLevels_total (outE : List (Str × List Str)) (uni : List Str)
    (hcl : ∀ p ∈ outE, ∀ c ∈ p.2, c ∈ uni) :
    ∀ (fuel : Nat) (nid : Str) (level : Nat) (st : LvSt),
      nid ∈ uni → freeCount uni st.inStack < fuel →
      ∃ st2, assignLevels outE fuel nid level st = some st2 ∧
        st2.inStack = st.inStack := by
  intro fuel
  induction fuel with
  | zero => intro nid level st _ hf; exact absurd hf (Nat.not_lt_zero _)
  | succ f ih =>
    intro nid level st hn hf
    by_cases hin : nid ∈ st.inStack
    · refine ⟨st, ?_, rfl⟩
      simp only [assignLevels]
      rw [if_pos hin]
    · by_cases hrv : (decide (nid ∈ st.visited) &&
          (mapGet st.nodeLevel nid).elim true
            (fun cur => decide (level ≤ cur))) = true
      · refine ⟨st, ?_, rfl⟩
        simp only [assignLevels]
        rw [if_neg hin, if_pos hrv]
      · have hbase : insertS nid st.inStack = nid :: st.inStack := by
          simp only [insertS]
          rw [if_neg hin]
        have hdec := freeCount_lt uni nid st.inStack hn hin
        have hle : freeCount uni st.inStack ≤ f := Nat.lt_succ_iff.mp hf
        have hflt : freeCount uni (nid :: st.inStack) < f :=
          Nat.lt_of_lt_of_le hdec hle
        have hrec : ∀ (c : Str) (s : LvSt), c ∈ uni →
            s.inStack = nid :: st.inStack →
            ∃ s2, assignLevels outE f c (level + 1) s = some s2 ∧
              s2.inStack = nid :: st.inStack := by
          intro c s hc hsb
          obtain ⟨s2, he, hei⟩ := ih c (level + 1) s hc
            (by rw [hsb]; exact hflt)
          exact ⟨s2, he, by rw [hei, hsb]⟩
        have hkids : ∀ c ∈ mapGetD outE nid [], c ∈ uni := by
          intro c hc
          cases hg : mapGet outE nid with
          | none =>
            simp only [mapGetD, hg, Option.getD_none] at hc
            exact absurd hc (List.not_mem_nil c)
          | some l =>
            simp only [mapGetD, hg, Option.getD_some] at hc
            exact hcl (nid, l) (mapGet_mem hg) c hc
        obtain ⟨s3, h3, h3i⟩ := kidsFold outE f level uni (nid :: st.inStack)
          hrec (mapGetD outE nid []) hkids
          { nodeLevel := mapSet
              (if nid ∈ st.visited then mapSet st.nodeLevel nid level
               else st.nodeLevel) nid
              (max (mapGetD
                (if nid ∈ st.visited then mapSet st.nodeLevel nid level
                 else st.nodeLevel) nid 0) level),
            visited := insertS nid st.visited,
            inStack := insertS nid st.inStack }
          hbase
        refine ⟨{ s3 with inStack := removeS nid s3.inStack }, ?_, ?_⟩
        · simp only [assignLevels]
          rw [if_neg hin, if_neg hrv, h3]
          rfl
        · show removeS nid s3.inStack = st.inStack
          rw [h3i]
          exact removeS_cons_self nid st.inStack hin

/-- Folding a step that preserves a property over elements of a carrier
list preserves the property. -/
theorem foldl_pres_mem {α β : Type} (P : β → Prop) (f : β → α → β)
    (l0 : List α) (hf : ∀ b a, a ∈ l0 → P b → P (f b a)) :
    ∀ (l : List α), (∀ a ∈ l, a ∈ l0) → ∀ b, P b → P (l.foldl f b) := by
  intro l
  induction l with
  | nil => intro _ b hb; exact hb
  | cons a t ih =>
    intro hsub b hb
    rw [List.foldl_cons]
    exact ih (fun x hx => hsub x (List.mem_cons_of_mem a hx)) (f b a)
      (hf b a (hsub a (List.mem_cons_self a t)) hb)

/-- The empty-bucket initialisation of the adjacency maps only holds
buckets whose members (vacuously) lie in any carrier. -/
theorem buildOutInit_closed (T : List Str) :
    ∀ (nodes : List Node) (m0 : List (Str × List Str)),
      (∀ p ∈ m0, ∀ c ∈ p.2, c ∈ T) →
      ∀ p ∈ nodes.foldl (fun m n => mapSet m n.id []) m0,
        ∀ c ∈ p.2, c ∈ T := by
  intro nodes
  induction nodes with
  | nil => intro m0 h p hp; exact h p hp
  | cons n t ih =>
    intro m0 h
    rw [List.foldl_cons]
    apply ih
    intro p hp c hc
    rcases mem_mapSet_elim hp with he | hm
    · subst he
      exact absurd hc (List.not_mem_nil c)
    · exact h p hm c hc

/-- One `outEdges` step keeps every bucket member inside the carrier
when the appended target is in the carrier. -/
theorem outStep_pres (T : List Str) (m : List (Str × List Str)) (e : Edge)
    (ht : e.target ∈ T) (h : ∀ p ∈ m, ∀ c ∈ p.2, c ∈ T) :
    ∀ p ∈ (mapGet m e.source).elim m
        (fun l => mapSet m e.source (l ++ [e.target])),
      ∀ c ∈ p.2, c ∈ T := by
  intro p hp c hc
  cases hg : mapGet m e.source with
  | none =>
    rw [hg] at hp
    simp only [Option.elim] at hp
    exact h p hp c hc
  | some l =>
    rw [hg] at hp
    simp only [Option.elim] at hp
    rcases mem_mapSet_elim hp with he | hm
    · subst he
      have hc2 : c ∈ l ++ [e.target] := hc
      rcases List.mem_append.mp hc2 with hcl | hct
      · exact h (e.source, l) (mapGet_mem hg) c hcl
      · rw [List.mem_singleton] at hct
        rw [hct]
        exact ht
    · exact h p hm c hc

/-- Every bucket member of the `outEdges` map is an edge target, hence
in the id universe. -/
theorem buildOutEdges_closed (nodes : List Node) (edges : List Edge) :
    ∀ p ∈ buildOutEdges nodes edges, ∀ c ∈ p.2,
      c ∈ levelUniverse nodes edges := by
  exact foldl_pres_mem
    (fun m => ∀ p ∈ m, ∀ c ∈ p.2, c ∈ levelUniverse nodes edges)
    (fun m e => (mapGet m e.source).elim m
      (fun l => mapSet m e.source (l ++ [e.target])))
    edges
    (fun m e he hm => outStep_pres (levelUniverse nodes edges) m e
      (List.mem_append_right _ (List.mem_map_of_mem Edge.target he)) hm)
    edges (fun a ha => ha)
    (nodes.foldl (fun m n => mapSet m n.id []) [])
    (buildOutInit_closed (levelUniverse nodes edges) nodes []
      (fun p hp => absurd hp (List.not_mem_nil p)))

/-- Every chosen root is one of the diagram's nodes. -/
theorem levelRoots_mem (nodes : List Node) (edges : List Edge) :
    ∀ r ∈ levelRoots nodes edges, r ∈ nodes := by
  intro r hr
  simp only [levelRoots] at hr
  split at hr
  · cases nodes with
    | nil => exact absurd hr (List.not_mem_nil r)
    | cons n tl =>
      have hr2 : r ∈ [n] := hr
      rw [List.mem_singleton] at hr2
      rw [hr2]
      exact List.mem_cons_self n tl
  · exact List.mem_of_mem_filter hr

/-- The root loop succeeds and restores the stack whenever every root
id lies in the universe and the fuel exceeds the free count. -/
theorem runRoots_total (outE : List (Str × List Str)) (uni : List Str)
    (fuel : Nat) (hcl : ∀ p ∈ outE, ∀ c ∈ p.2, c ∈ uni) :
    ∀ (roots : List Node) (st : LvSt),
      (∀ r ∈ roots, r.id ∈ uni) →
      freeCount uni st.inStack < fuel →
      ∃ st2, runRoots outE fuel roots st = some st2 ∧
        st2.inStack = st.inStack := by
  intro roots
  induction roots with
  | nil => intro st _ _; exact ⟨st, rfl, rfl⟩
  | cons r rs ih =>
    intro st hmem hf
    obtain ⟨s1, h1, hi1⟩ := assignLevels_total outE uni hcl fuel r.id 0 st
      (hmem r (List.mem_cons_self r rs)) hf
    simp only [runRoots]
    rw [h1]
    have hred : ((some s1).bind fun s => runRoots outE fuel rs s)
        = runRoots outE fuel rs s1 := rfl
    rw [hred]
    obtain ⟨s2, h2, hi2⟩ := ih s1
      (fun x hx => hmem x (List.mem_cons_of_mem r hx))
      (by rw [hi1]; exact hf)
    exact ⟨s2, h2, by rw [hi2, hi1]⟩

/-- The defaulting loop never loses an existing key. -/
theorem defaultLevels_mono (nodes : List Node) :
    ∀ (m : List (Str × Nat)) (k : Str), mapHas m k = true →
      mapHas (defaultLevels nodes m) k = true := by
  induction nodes with
  | nil => intro m k h; exact h
  | cons n t ih =>
    intro m k h
    simp only [defaultLevels, List.foldl_cons]
    have hstep : mapHas
        (if mapHas m n.id = true then m else mapSet m n.id 0) k = true := by
      by_cases hh : mapHas m n.id = true
      · rw [if_pos hh]; exact h
      · rw [if_neg hh]; exact mapHas_mapSet m n.id 0 k h
    exact ih (if mapHas m n.id = true then m else mapSet m n.id 0) k hstep

/-- After the defaulting loop every node's id is present in the level
map. -/
theorem defaultLevels_has (nodes : List Node) :
    ∀ (m : List (Str × Nat)) (n : Node), n ∈ nodes →
      mapHas (defaultLevels nodes m) n.id = true := by
  induction nodes with
  | nil => intro m n hn; exact absurd hn (List.not_mem_nil n)
  | cons b t ih =>
    intro m n hn
    simp only [defaultLevels, List.foldl_cons]
    rcases List.mem_cons.mp hn with he | hm
    · subst he
      apply defaultLevels_mono t
      by_cases hh : mapHas m n.id = true
      · rw [if_pos hh]; exact hh
      · rw [if_neg hh]; exact mapHas_mapSet_self m n.id 0
    · exact ih (if mapHas m b.id = true then m else mapSet m b.id 0) n hm

/-- The defaulting loop either keeps a key's level or sets it to 0. -/
theorem defaultLevels_get (nodes : List Node) :
    ∀ (m : List (Str × Nat)) (k : Str),
      mapGet (defaultLevels nodes m) k = mapGet m k ∨
      mapGet (defaultLevels nodes m) k = some 0 := by
  induction nodes with
  | nil => intro m k; exact Or.inl rfl
  | cons b t ih =>
    intro m k
    simp only [defaultLevels, List.foldl_cons]
    have hstep : mapGet
          (if mapHas m b.id = true then m else mapSet m b.id 0) k
          = mapGet m k ∨
        mapGet (if mapHas m b.id = true then m else mapSet m b.id 0) k
          = some 0 := by
      by_cases hh : mapHas m b.id = true
      · rw [if_pos hh]; exact Or.inl rfl
      · rw [if_neg hh, mapGet_mapSet]
        by_cases hk : k = b.id
        · rw [if_pos hk]; exact Or.inr rfl
        · rw [if_neg hk]; exact Or.inl rfl
    rcases ih (if mapHas m b.id = true then m else mapSet m b.id 0) k
        with h1 | h1
    · rcases hstep with h2 | h2
      · exact Or.inl (h1.trans h2)
      · exact Or.inr (h1.trans h2)
    · exact Or.inr h1

/-- C8: for every finite node set and edge list — cyclic edge relations
included — the `calculatePositions` level traversal terminates (the
fuelled embedding succeeds within the computed fuel, never exhausting
it), and after the defaulting loop every node has a defined level, any
node the traversal never labeled getting level 0. -/
theorem claim8_level_assignment :
    ∀ (nodes : List Node) (edges : List Edge),
      ∃ st, calcLevelsRun nodes edges = some st ∧
        calcNodeLevels nodes edges
          = some (defaultLevels nodes st.nodeLevel) ∧
        (∀ n ∈ nodes,
          mapHas (defaultLevels nodes st.nodeLevel) n.id = true) ∧
        (∀ n ∈ nodes, mapGet st.nodeLevel n.id = none →
          mapGet (defaultLevels nodes st.nodeLevel) n.id = some 0) := by
  intro nodes edges
  obtain ⟨st, hrun, hstk⟩ := runRoots_total (buildOutEdges nodes edges)
    (levelUniverse nodes edges) (calcLevelFuel nodes edges)
    (buildOutEdges_closed nodes edges)
    (levelRoots nodes edges)
    { nodeLevel := [], visited := [], inStack := [] }
    (fun r hr => List.mem_append_left _
      (List.mem_map_of_mem Node.id (levelRoots_mem nodes edges r hr)))
    (freeCount_nil_lt nodes edges)
  have hrun2 : calcLevelsRun nodes edges = some st := hrun
  refine ⟨st, hrun2, ?_, ?_, ?_⟩
  · have hmap : calcNodeLevels nodes edges = (calcLevelsRun nodes edges).map
        (fun s => defaultLevels nodes s.nodeLevel) := rfl
    rw [hmap, hrun2]
    rfl
  · intro n hn
    exact defaultLevels_has nodes st.nodeLevel n hn
  · intro n hn hm
    rcases defaultLevels_get nodes st.nodeLevel n.id with h1 | h1
    · have hh := defaultLevels_has nodes st.nodeLevel n hn
      rw [hm] at h1
      simp only [mapHas, h1, Option.isSome_none] at hh
      exact absurd hh Bool.false_ne_true
    · exact h1

/-- C8 witness: the two-node cycle `A --> B --> A` — the traversal
returns, and its level map defaults successfully. -/
theorem claim8_witness :
    calcNodeLevels
      [{ id := s2l "A", label := s2l "A", shape := s2l "rectangle",
         style := s2l "", fillColor := s2l "", strokeColor := s2l "" },
       { id := s2l "B", label := s2l "B", shape := s2l "rectangle",
         style := s2l "", fillColor := s2l "", strokeColor := s2l "" }]
      [{ id := s2l "e1", source := s2l "A", target := s2l "B",
         label := s2l "", arrowType := none },
       { id := s2l "e2", source := s2l "B", target := s2l "A",
         label := s2l "", arrowType := none }] ≠ none := by
  obtain ⟨st, h1, h2, h3, h4⟩ := claim8_level_assignment
    [{ id := s2l "A", label := s2l "A", shape := s2l "rectangle",
       style := s2l "", fillColor := s2l "", strokeColor := s2l "" },
     { id := s2l "B", label := s2l "B", shape := s2l "rectangle",
       style := s2l "", fillColor := s2l "", strokeColor := s2l "" }]
    [{ id := s2l "e1", source := s2l "A", target := s2l "B",
       label := s2l "", arrowType := none },
     { id := s2l "e2", source := s2l "B", target := s2l "A",
       label := s2l "", arrowType := none }]
  rw [h2]
  exact fun hx => Option.noConfusion hx
